import Mathlib

/-!
# libevaio: POSIX AIO completion tracking on top of libevent

A shallow embedding of `src/evaio.c`.

* Pointers are natural numbers, `0` is `NULL`.
* The bridge object (`struct evaio`) that `config->aio` and the reaper's `user_data`
  point to is the `aio` component of the state `World`; the header states that only
  one bridge may exist per process.
* The intrusive `TAILQ` of `user_io_op` records is a list of records, each carrying the
  address `calloc` returned for it.  `TAILQ_FIRST`, `TAILQ_NEXT`, `TAILQ_INSERT_TAIL`
  and `TAILQ_REMOVE` act on that list through addresses, as the macros do.
* Every call the library makes to its environment (libc, POSIX AIO, libevent, the
  user's completion callbacks) is appended to `World.trace`, and the answer of the
  environment is an explicit argument of the embedded function.
* `calloc` / `malloc` hand out addresses that were never handed out before
  (`World.brk` is the highest address handed out so far).
-/

namespace Evaio

/-! ## Constants of the system headers (Linux / glibc, x86-64) -/

/-- The type `errno_t` of `evaio.h` (`typedef int errno_t`). -/
abbrev errno_t := Int

/-- Value of `EINVAL` in `errno.h`. -/
def EINVAL : Int := 22
/-- Value of `ENOMEM` in `errno.h`. -/
def ENOMEM : Int := 12
/-- Value of `EINPROGRESS` in `errno.h`. -/
def EINPROGRESS : Int := 115
/-- Value of `ECANCELED` in `errno.h`. -/
def ECANCELED : Int := 125
/-- Value of `O_DSYNC` in `fcntl.h`. -/
def O_DSYNC : Int := 4096
/-- Value of `O_SYNC` in `fcntl.h`. -/
def O_SYNC : Int := 1052672
/-- Value of `SIGEV_SIGNAL` in `signal.h`. -/
def SIGEV_SIGNAL : Int := 0
/-- Value of `SIGIO` in `signal.h`. -/
def SIGIO : Int := 29
/-- Width in bits of `size_t`. -/
def SIZE_WIDTH : Nat := 64

/-- The conversion `(size_t) progress` of a signed `ssize_t` value: reduction modulo
`2 ^ SIZE_WIDTH`. -/
def size_t_cast (x : Int) : Nat := (x % (2 : Int) ^ SIZE_WIDTH).toNat

/-! ## Data model -/

/-- The POSIX control block `struct aiocb` (the fields POSIX specifies; `aio_sigevent`
is flattened into its three members). -/
structure aiocb where
  aio_fildes : Int
  aio_lio_opcode : Int
  aio_reqprio : Int
  aio_buf : Nat
  aio_nbytes : Nat
  sigev_value : Nat
  sigev_signo : Int
  sigev_notify : Int
  aio_offset : Int
deriving DecidableEq, Repr

/-- The record `struct user_io_op`.  `addr` is the address of the record (what `calloc`
returned); the `entries` link is the position of the record in the registry. -/
structure user_io_op where
  addr : Nat
  base : aiocb
  cb : Nat
  user_data : Nat
deriving DecidableEq, Repr

/-- The bridge `struct evaio`: the `TAILQ_HEAD` of pending records and the libevent
signal event. -/
structure evaio where
  base : List user_io_op
  sigio_event : Nat
deriving DecidableEq, Repr

/-- The request descriptor `evaio_config` of `evaio.h`. -/
structure evaio_config where
  aio : Nat
  data : Nat
  data_size : Nat
  cb : Nat
  user_data : Nat
  offset : Int
  fd : Int
deriving DecidableEq, Repr

/-- One call of the library into its environment, with the answer it got. -/
inductive Event where
  /-- `calloc(1, sizeof (user_io_op))` returned `p` (`0` on failure). -/
  | calloc (p : Nat)
  /-- `malloc(sizeof (evaio))` returned `p` (`0` on failure). -/
  | malloc (p : Nat)
  /-- `free(p)`. -/
  | free (p : Nat)
  /-- `aio_read(BASE(elt))` returned `ret`. -/
  | aio_read (elt : user_io_op) (ret : Int)
  /-- `aio_write(BASE(elt))` returned `ret`. -/
  | aio_write (elt : user_io_op) (ret : Int)
  /-- `aio_fsync(op, BASE(elt))` returned `ret`. -/
  | aio_fsync (op : Int) (elt : user_io_op) (ret : Int)
  /-- `aio_error(BASE(elt))` returned `status`. -/
  | aio_error (elt : Nat) (status : Int)
  /-- `aio_return(BASE(elt))` returned `progress`. -/
  | aio_return (elt : Nat) (progress : Int)
  /-- The call `elt->cb(aio, status, transfered, user_data)` of the record at `elt`. -/
  | cb (elt : Nat) (fn : Nat) (aio : Nat) (status : Int) (transfered : Nat) (user_data : Nat)
  /-- `evsignal_new(base, signo, evaio_sigio_handler, arg)` returned `ev`. -/
  | evsignal_new (base : Nat) (signo : Int) (arg : Nat) (ev : Nat)
  /-- `event_add(ev, NULL)` returned `ret`. -/
  | event_add (ev : Nat) (ret : Int)
  /-- `event_free(ev)`. -/
  | event_free (ev : Nat)
deriving DecidableEq, Repr

/-- The state the library runs in: the bridge object, the allocator break, `errno`,
and the log of calls made to the environment. -/
structure World where
  aio : evaio
  brk : Nat
  errno : Int
  trace : List Event
deriving DecidableEq, Repr

/-- Append an event to the log. -/
def World.log (w : World) (e : Event) : World :=
  { w with trace := w.trace ++ [e] }

/-! ## libc -/

/-- The allocation `calloc(1, size)`: on success a never used address, on failure `NULL`
with `errno` set to `ENOMEM`. -/
def calloc (ok : Bool) (w : World) : Nat × World :=
  if ok then
    (w.brk + 1, { w with brk := w.brk + 1, trace := w.trace ++ [Event.calloc (w.brk + 1)] })
  else
    (0, { w with errno := ENOMEM, trace := w.trace ++ [Event.calloc 0] })

/-- The allocation `malloc(size)`: as `calloc`, the contents are not used before they
are written. -/
def malloc (ok : Bool) (w : World) : Nat × World :=
  if ok then
    (w.brk + 1, { w with brk := w.brk + 1, trace := w.trace ++ [Event.malloc (w.brk + 1)] })
  else
    (0, { w with errno := ENOMEM, trace := w.trace ++ [Event.malloc 0] })

/-- The release `free(p)`; it leaves `errno` alone. -/
def free (p : Nat) (w : World) : World :=
  w.log (Event.free p)

/-! ## sys/queue.h -/

/-- The macro `TAILQ_FIRST`: address of the first record, `NULL` when the queue is empty. -/
def TAILQ_FIRST (q : List user_io_op) : Nat :=
  match q with
  | [] => 0
  | e :: _ => e.addr

/-- The macro `TAILQ_NEXT(elt, entries)`: address of the record linked after the record
at `elt`, `NULL` for the last one. -/
def TAILQ_NEXT (q : List user_io_op) (elt : Nat) : Nat :=
  match q with
  | [] => 0
  | e :: rest => if e.addr = elt then TAILQ_FIRST rest else TAILQ_NEXT rest elt

/-- The macro `TAILQ_INSERT_TAIL`. -/
def TAILQ_INSERT_TAIL (q : List user_io_op) (elt : user_io_op) : List user_io_op :=
  q ++ [elt]

/-- The macro `TAILQ_REMOVE`: unlink the record at `elt`. -/
def TAILQ_REMOVE (q : List user_io_op) (elt : Nat) : List user_io_op :=
  q.filter (fun e => e.addr != elt)

/-- Dereference of a record pointer that is linked in the queue. -/
def deref (q : List user_io_op) (elt : Nat) : Option user_io_op :=
  q.find? (fun e => e.addr == elt)

/-! ## evaio.c -/

/-- The function `evaio_add_elt`. -/
def evaio_add_elt (elt : user_io_op) (w : World) : World :=
  { w with aio := { w.aio with base := TAILQ_INSERT_TAIL w.aio.base elt } }

/-- The function `evaio_del_elt`: `TAILQ_REMOVE` then `free(elt)`. -/
def evaio_del_elt (elt : Nat) (w : World) : World :=
  free elt { w with aio := { w.aio with base := TAILQ_REMOVE w.aio.base elt } }

/-- The zero-filled record `calloc` returns at address `p`. -/
def user_io_op.zeroed (p : Nat) : user_io_op :=
  { addr := p
    base :=
      { aio_fildes := 0, aio_lio_opcode := 0, aio_reqprio := 0, aio_buf := 0,
        aio_nbytes := 0, sigev_value := 0, sigev_signo := 0, sigev_notify := 0,
        aio_offset := 0 }
    cb := 0
    user_data := 0 }

/-- The assignments of `user_io_op_init` to the freshly allocated record. -/
def user_io_op.fill (self : user_io_op) (config : evaio_config) : user_io_op :=
  { self with
    cb := config.cb
    user_data := config.user_data
    base :=
      { self.base with
        aio_fildes := config.fd
        aio_buf := config.data
        aio_nbytes := config.data_size
        aio_offset := config.offset
        sigev_notify := SIGEV_SIGNAL
        sigev_signo := SIGIO } }

/-- The function `user_io_op_init`: `none` is the `NULL` result. -/
def user_io_op_init (config : evaio_config) (calloc_ok : Bool) (w : World) :
    Option user_io_op × World :=
  let r := calloc calloc_ok w
  if r.1 ≠ 0 then
    (some ((user_io_op.zeroed r.1).fill config), r.2)
  else
    (none, r.2)

/-- A POSIX submission primitive as the library sees it: given the record whose control
block is passed, it returns an `int` and may set `errno`. -/
abbrev io_operation_t := user_io_op → World → Int × World

/-- The primitive `aio_read`: the OS answers `ret`, and sets `errno` to `err` when
`ret` is `-1`. -/
def aio_read (ret err : Int) : io_operation_t := fun elt w =>
  (ret, { w with errno := if ret = -1 then err else w.errno,
                 trace := w.trace ++ [Event.aio_read elt ret] })

/-- The primitive `aio_write`: the OS answers `ret`, and sets `errno` to `err` when
`ret` is `-1`. -/
def aio_write (ret err : Int) : io_operation_t := fun elt w =>
  (ret, { w with errno := if ret = -1 then err else w.errno,
                 trace := w.trace ++ [Event.aio_write elt ret] })

/-- The primitive `aio_fsync(op, ·)`: the OS answers `ret`, and sets `errno` to `err`
when `ret` is `-1`. -/
def aio_fsync (ret err : Int) (op : Int) : io_operation_t := fun elt w =>
  (ret, { w with errno := if ret = -1 then err else w.errno,
                 trace := w.trace ++ [Event.aio_fsync op elt ret] })

/-- The part of `evaio_enqueue` and `evaio_fsync` after validation (the two functions
have the same text there, up to the primitive called). -/
def enqueue_valid (config : evaio_config) (io_operation : io_operation_t)
    (calloc_ok : Bool) (w : World) : errno_t × World :=
  match user_io_op_init config calloc_ok w with
  | (some elt, w1) =>
    let w2 := evaio_add_elt elt w1
    let r := io_operation elt w2
    if r.1 = -1 then
      let w4 := evaio_del_elt elt.addr r.2
      (w4.errno, w4)
    else
      (r.1, r.2)
  | (none, w1) => (ENOMEM, w1)

/-- The function `evaio_enqueue`. -/
def evaio_enqueue (config : Option evaio_config) (io_operation : io_operation_t)
    (calloc_ok : Bool) (w : World) : errno_t × World :=
  match config with
  | none => (EINVAL, w)
  | some c =>
    if c.aio = 0 ∨ c.data = 0 ∨ c.cb = 0 ∨ c.fd < 0 ∨ c.data_size = 0 then
      (EINVAL, w)
    else
      enqueue_valid c io_operation calloc_ok w

/-- The function `evaio_read`; `calloc_ok`, `ret`, `err` are the answers of `calloc`
and `aio_read`, should they be called. -/
def evaio_read (config : Option evaio_config) (calloc_ok : Bool) (ret err : Int)
    (w : World) : errno_t × World :=
  evaio_enqueue config (aio_read ret err) calloc_ok w

/-- The function `evaio_write`; `calloc_ok`, `ret`, `err` are the answers of `calloc`
and `aio_write`, should they be called. -/
def evaio_write (config : Option evaio_config) (calloc_ok : Bool) (ret err : Int)
    (w : World) : errno_t × World :=
  evaio_enqueue config (aio_write ret err) calloc_ok w

/-- The function `evaio_fsync`; `calloc_ok`, `ret`, `err` are the answers of `calloc`
and `aio_fsync`, should they be called. -/
def evaio_fsync (config : Option evaio_config) (op : Int) (calloc_ok : Bool)
    (ret err : Int) (w : World) : errno_t × World :=
  match config with
  | none => (EINVAL, w)
  | some c =>
    if c.aio = 0 ∨ c.cb = 0 ∨ c.fd < 0 ∨ (op ≠ O_DSYNC ∧ op ≠ O_SYNC) then
      (EINVAL, w)
    else
      enqueue_valid c (aio_fsync ret err op) calloc_ok w

/-- The function `evaio_new`; `malloc_ok`, `ev` and `add_ret` are the answers of
`malloc`, `evsignal_new` and `event_add`, should they be called.  The result is the
address of the new bridge, or `NULL`. -/
def evaio_new (base : Nat) (malloc_ok : Bool) (ev : Nat) (add_ret : Int) (w : World) :
    Nat × World :=
  let r := malloc malloc_ok w
  if r.1 ≠ 0 then
    let self := r.1
    let w1 : World := { r.2 with aio := { r.2.aio with base := [] } }
    let w2 : World :=
      { w1 with aio := { w1.aio with sigio_event := ev } }.log
        (Event.evsignal_new base SIGIO self ev)
    if ev ≠ 0 then
      let w3 := w2.log (Event.event_add ev add_ret)
      if add_ret ≠ 0 then
        (0, free self (w3.log (Event.event_free ev)))
      else
        (self, w3)
    else
      (0, free self w2)
  else
    (0, r.2)

/-- The loop of `evaio_del`: `free` every record, following the links. -/
def free_all (q : List user_io_op) (w : World) : World :=
  match q with
  | [] => w
  | e :: rest => free_all rest (free e.addr w)

/-- The function `evaio_del`. -/
def evaio_del (aio : Nat) (w : World) : World :=
  if aio ≠ 0 then
    let w1 := free_all w.aio.base w
    let w2 := w1.log (Event.event_free w.aio.sigio_event)
    free aio w2
  else
    w

/-! ## Completion callbacks and the reaper -/

/-- A submission made through the public interface, with the answers the environment
gives to it. -/
inductive Submission where
  | read (config : Option evaio_config) (calloc_ok : Bool) (ret err : Int)
  | write (config : Option evaio_config) (calloc_ok : Bool) (ret err : Int)
  | fsync (config : Option evaio_config) (op : Int) (calloc_ok : Bool) (ret err : Int)
deriving DecidableEq, Repr

/-- Run one submission. -/
def Submission.run (s : Submission) (w : World) : errno_t × World :=
  match s with
  | .read config calloc_ok ret err => evaio_read config calloc_ok ret err w
  | .write config calloc_ok ret err => evaio_write config calloc_ok ret err w
  | .fsync config op calloc_ok ret err => evaio_fsync config op calloc_ok ret err w

/-- Run submissions one after the other. -/
def submit_all (l : List Submission) (w : World) : World :=
  match l with
  | [] => w
  | s :: rest => submit_all rest (s.run w).2

/-- The user code behind the callback pointers: called as
`fn(aio, status, transfered, user_data)` in a given state, a callback may submit new
operations on the bridge (and do anything that does not concern the library). -/
abbrev Callbacks := Nat → Nat → Int → Nat → Nat → World → List Submission

/-- Callbacks that submit nothing: they do not touch the registry. -/
def Callbacks.quiet (cbs : Callbacks) : Prop :=
  ∀ fn aio status transfered user_data w, cbs fn aio status transfered user_data w = []

/-- The call `elt->cb(aio, status, transfered, elt->user_data)`. -/
def call_cb (cbs : Callbacks) (e : user_io_op) (aio : Nat) (status : Int)
    (transfered : Nat) (w : World) : World :=
  let w1 := w.log (Event.cb e.addr e.cb aio status transfered e.user_data)
  submit_all (cbs e.cb aio status transfered e.user_data w1) w1

/-- The `for` loop of `evaio_sigio_handler`, started with the loop variable at `elt`.
`aio_error` and `aio_return` are the answers of the OS for each record.  The loop may
run for ever when callbacks keep submitting operations that are finished at once, so
it is cut after `fuel` iterations; `none` is the cut, or the dereference of a pointer
that is not linked in the registry. -/
def sigio_loop (cbs : Callbacks) (aio_error aio_return : Nat → Int) (aio : Nat) :
    Nat → Nat → World → Option World
  | _, 0, w => some w
  | 0, _ + 1, _ => none
  | fuel + 1, elt + 1, w =>
    match deref w.aio.base (elt + 1) with
    | none => none
    | some e =>
      let status := aio_error (elt + 1)
      let w1 := w.log (Event.aio_error (elt + 1) status)
      if status ≠ EINPROGRESS then
        let next := TAILQ_NEXT w1.aio.base (elt + 1)
        let progress := aio_return (elt + 1)
        let w2 := w1.log (Event.aio_return (elt + 1) progress)
        let w3 := call_cb cbs e aio status (size_t_cast progress) w2
        let w4 := evaio_del_elt (elt + 1) w3
        sigio_loop cbs aio_error aio_return aio fuel next w4
      else
        sigio_loop cbs aio_error aio_return aio fuel (TAILQ_NEXT w1.aio.base (elt + 1)) w1

/-- The function `evaio_sigio_handler`, called by libevent with `user_data` the address
of the bridge. -/
def evaio_sigio_handler (cbs : Callbacks) (aio_error aio_return : Nat → Int) (fuel : Nat)
    (user_data : Nat) (w : World) : Option World :=
  sigio_loop cbs aio_error aio_return user_data fuel (TAILQ_FIRST w.aio.base) w

/-- One step of the life of a bridge: a submission, or a delivery of `SIGIO` with the
statuses and results the OS reports during the pass. -/
inductive Call where
  | submit (s : Submission)
  | sigio (aio_error aio_return : Nat → Int) (fuel : Nat)

/-- Run a sequence of calls on the bridge at `aio`. -/
def run (cbs : Callbacks) (aio : Nat) (calls : List Call) (w : World) : Option World :=
  match calls with
  | [] => some w
  | .submit s :: rest => run cbs aio rest (s.run w).2
  | .sigio aio_error aio_return fuel :: rest =>
    match evaio_sigio_handler cbs aio_error aio_return fuel aio w with
    | none => none
    | some w1 => run cbs aio rest w1

/-- The state of the process before the library is used. -/
def World.boot : World :=
  { aio := { base := [], sigio_event := 0 }, brk := 0, errno := 0, trace := [] }

/-! ## Observations on the log -/

/-- The records the OS accepted, in the order of their submission: the records passed to
`aio_read`, `aio_write` or `aio_fsync` in a call that did not report failure (`-1`). -/
def accepted (tr : List Event) : List user_io_op :=
  tr.filterMap fun ev =>
    match ev with
    | .aio_read e ret => if ret = -1 then none else some e
    | .aio_write e ret => if ret = -1 then none else some e
    | .aio_fsync _ e ret => if ret = -1 then none else some e
    | _ => none

/-- The addresses of the records whose callback was invoked, in order of invocation. -/
def fired (tr : List Event) : List Nat :=
  tr.filterMap fun ev =>
    match ev with
    | .cb a _ _ _ _ _ => some a
    | _ => none

/-- The addresses of the records polled with `aio_error`, in order. -/
def polled (tr : List Event) : List Nat :=
  tr.filterMap fun ev =>
    match ev with
    | .aio_error a _ => some a
    | _ => none

/-- The addresses of the records whose result was retrieved with `aio_return`, in order. -/
def returned (tr : List Event) : List Nat :=
  tr.filterMap fun ev =>
    match ev with
    | .aio_return a _ => some a
    | _ => none

/-- The event is the callback invocation of the record at `a`. -/
def Event.fires (ev : Event) (a : Nat) : Prop :=
  match ev with
  | .cb e _ _ _ _ _ => e = a
  | _ => False

/-- The event polls the record at `a` or invokes its callback. -/
def Event.touches (ev : Event) (a : Nat) : Prop :=
  match ev with
  | .cb e _ _ _ _ _ => e = a
  | .aio_error e _ => e = a
  | _ => False

/-- Once the callback of a record has been invoked, nothing later in the log polls that
record or invokes its callback. -/
def fired_once (tr : List Event) : Prop :=
  tr.Pairwise fun e1 e2 => ∀ a, e1.fires a → ¬ e2.touches a

/-- The registry is well formed: its records sit at pairwise distinct, non-null
addresses that the allocator has handed out. -/
def World.wf (w : World) : Prop :=
  (w.aio.base.map (·.addr)).Nodup ∧ ∀ e ∈ w.aio.base, 0 < e.addr ∧ e.addr ≤ w.brk

/-- The request passes the validation of `evaio_read` / `evaio_write`: bridge, buffer and
callback non-null, descriptor non-negative, length positive. -/
abbrev valid_rw (c : evaio_config) : Prop :=
  c.aio ≠ 0 ∧ c.data ≠ 0 ∧ c.cb ≠ 0 ∧ 0 ≤ c.fd ∧ 0 < c.data_size

/-- The request and mode pass the validation of `evaio_fsync`: bridge and callback
non-null, descriptor non-negative, mode `O_DSYNC` or `O_SYNC`. -/
abbrev valid_sync (c : evaio_config) (op : Int) : Prop :=
  c.aio ≠ 0 ∧ c.cb ≠ 0 ∧ 0 ≤ c.fd ∧ (op = O_DSYNC ∨ op = O_SYNC)

/-- The record `user_io_op_init` builds for `config` in state `w` when `calloc`
succeeds. -/
def new_record (config : evaio_config) (w : World) : user_io_op :=
  (user_io_op.zeroed (w.brk + 1)).fill config

/-- The events of one reaper pass over the records `q`. -/
def pass_events (aio_error aio_return : Nat → Int) (aio : Nat) (q : List user_io_op) :
    List Event :=
  match q with
  | [] => []
  | e :: rest =>
    (if aio_error e.addr ≠ EINPROGRESS then
      [Event.aio_error e.addr (aio_error e.addr),
       Event.aio_return e.addr (aio_return e.addr),
       Event.cb e.addr e.cb aio (aio_error e.addr) (size_t_cast (aio_return e.addr))
         e.user_data,
       Event.free e.addr]
    else
      [Event.aio_error e.addr (aio_error e.addr)])
    ++ pass_events aio_error aio_return aio rest

/-- What holds of every state a bridge can reach: the registry is the list of accepted
records whose callback has not been invoked; accepted records sit at distinct, non-null
addresses handed out by the allocator; no callback was invoked twice, nor was a record
polled after its callback. -/
structure World.inv (w : World) : Prop where
  base_eq : w.aio.base = (accepted w.trace).filter (fun e => e.addr ∉ fired w.trace)
  nodup : ((accepted w.trace).map (·.addr)).Nodup
  bound : ∀ e ∈ accepted w.trace, 0 < e.addr ∧ e.addr ≤ w.brk
  fired_bound : ∀ a ∈ fired w.trace, a ≤ w.brk
  fired_nodup : (fired w.trace).Nodup
  once : fired_once w.trace

/-- The state `w1` comes from `w` by submissions only: the records `new` were appended
to the registry and the events `ext` to the log. -/
structure Ext (w w1 : World) (new : List user_io_op) (ext : List Event) : Prop where
  base : w1.aio.base = w.aio.base ++ new
  trace : w1.trace = w.trace ++ ext
  acc : accepted ext = new
  silent : ∀ ev ∈ ext, ∀ a, ¬ ev.touches a
  brk : w.brk ≤ w1.brk
  fresh : ∀ e ∈ new, w.brk < e.addr ∧ e.addr ≤ w1.brk
  nodup : (new.map (·.addr)).Nodup

/-- What the log must show right before an event: before a call of `aio_return` on a
record, the call of `aio_error` on that record with a status other than `EINPROGRESS`;
before the callback of a record, the call of `aio_return` on that record, whose value
converted to `size_t` is the count handed to the callback. -/
def Event.preceded_ok (pre : List Event) (ev : Event) : Prop :=
  match ev with
  | .aio_return a _ => ∃ l st, pre = l ++ [Event.aio_error a st] ∧ st ≠ EINPROGRESS
  | .cb a _ _ _ t _ => ∃ l p, pre = l ++ [Event.aio_return a p] ∧ t = size_t_cast p
  | _ => True

/-- Every event of the log comes right after what must precede it. -/
def in_sequence (tr : List Event) : Prop :=
  ∀ pre ev post, tr = pre ++ ev :: post → ev.preceded_ok pre

/-- The event is none of `aio_error`, `aio_return`, callback. -/
def Event.plain (ev : Event) : Prop :=
  match ev with
  | .aio_error _ _ => False
  | .aio_return _ _ => False
  | .cb _ _ _ _ _ _ => False
  | _ => True

/-- What holds of the log in every state a bridge can reach, about result retrieval:
events come in sequence, results were retrieved only for records whose callback was
then invoked, and for no record twice. -/
structure World.seq (w : World) : Prop where
  ordered : in_sequence w.trace
  returned_fired : ∀ a ∈ returned w.trace, a ∈ fired w.trace
  returned_nodup : (returned w.trace).Nodup

/-- Sample callbacks: user code that submits nothing. -/
def ex_cbs : Callbacks := fun _ _ _ _ _ _ => []

/-- Sample request: 20 bytes at buffer 100 on descriptor `fd`, callback 7. -/
def ex_config (fd : Int) (user_data : Nat) : evaio_config :=
  { aio := 1, data := 100, data_size := 20, cb := 7, user_data := user_data, offset := 0,
    fd := fd }

/-- Sample state: the bridge at address 1 holds three records, at 2, 3 and 4. -/
def ex_world : World :=
  { aio :=
      { base := [(user_io_op.zeroed 2).fill (ex_config 3 11),
                 (user_io_op.zeroed 3).fill (ex_config 4 12),
                 (user_io_op.zeroed 4).fill (ex_config 5 13)]
        sigio_event := 50 }
    brk := 4
    errno := 0
    trace := [] }

/-- Sample statuses: the record at 3 is in progress, the others finished with success. -/
def ex_status (a : Nat) : Int := if a = 3 then EINPROGRESS else 0

/-- Sample results: 20 bytes for every record. -/
def ex_result (_ : Nat) : Int := 20

/-- Sample callbacks: the callback called with user context 11 submits a read with
user context 99; the others submit nothing. -/
def ex_cbs_resubmit : Callbacks := fun _ _ _ _ user_data _ =>
  if user_data = 11 then [Submission.read (some (ex_config 8 99)) true 0 0] else []

/-- Sample life of a bridge: an accepted read, a write rejected at validation, a sync
rejected by the OS, then two deliveries of `SIGIO` that find every record finished. -/
def ex_calls : List Call :=
  [Call.submit (Submission.read (some (ex_config 3 11)) true 0 0),
   Call.submit (Submission.write (some (ex_config (-1) 12)) true 0 0),
   Call.submit (Submission.fsync (some (ex_config 4 13)) O_SYNC true (-1) 9),
   Call.sigio (fun _ => 0) ex_result 5,
   Call.sigio (fun _ => 0) ex_result 5]

/-- The state the sample life ends in, started on a bridge created in `World.boot`. -/
def ex_final : World :=
  { aio := { base := [], sigio_event := 50 }
    brk := 4
    errno := 9
    trace :=
      [Event.malloc 1, Event.evsignal_new 9 29 1 50, Event.event_add 50 0,
       Event.calloc 2, Event.aio_read ((user_io_op.zeroed 2).fill (ex_config 3 11)) 0,
       Event.calloc 3,
       Event.aio_fsync O_SYNC ((user_io_op.zeroed 3).fill (ex_config 4 13)) (-1),
       Event.free 3,
       Event.aio_error 2 0, Event.aio_return 2 20, Event.cb 2 7 1 0 20 11,
       Event.calloc 4, Event.aio_read ((user_io_op.zeroed 4).fill (ex_config 8 99)) 0,
       Event.free 2,
       Event.aio_error 4 0, Event.aio_return 4 20, Event.cb 4 7 1 0 20 99,
       Event.free 4] }

/-- The budget of loop iterations of every reaper pass in the sequence is at least `n`. -/
def Call.fuel_ok (n : Nat) (c : Call) : Prop :=
  match c with
  | .submit _ => True
  | .sigio _ _ fuel => n ≤ fuel

/-! ## Submission: single calls -/

theorem remove_fresh (q : List user_io_op) (a : Nat) (h : ∀ e ∈ q, e.addr ≠ a) :
    TAILQ_REMOVE q a = q := by
  unfold TAILQ_REMOVE
  rw [List.filter_eq_self]
  intro e he
  simpa using h e he

theorem remove_tail_fresh (q : List user_io_op) (elt : user_io_op)
    (h : ∀ e ∈ q, e.addr ≠ elt.addr) :
    TAILQ_REMOVE (TAILQ_INSERT_TAIL q elt) elt.addr = q := by
  unfold TAILQ_INSERT_TAIL TAILQ_REMOVE
  rw [List.filter_append]
  have h1 : q.filter (fun e => e.addr != elt.addr) = q := remove_fresh q elt.addr h
  simp [h1]

theorem user_io_op_init_ok (c : evaio_config) (w : World) :
    user_io_op_init c true w = (some (new_record c w), (calloc true w).2) := by
  simp [user_io_op_init, calloc, new_record]

theorem new_record_addr (c : evaio_config) (w : World) :
    (new_record c w).addr = w.brk + 1 := rfl

theorem enqueue_valid_accept (c : evaio_config) (io : io_operation_t) (w : World)
    (ret : Int) (w2 : World) (hret : ret ≠ -1)
    (hio : io (new_record c w)
      (evaio_add_elt (new_record c w) (calloc true w).2) = (ret, w2)) :
    enqueue_valid c io true w = (ret, w2) := by
  simp only [enqueue_valid, user_io_op_init_ok, hio]
  simp [hret]

theorem enqueue_valid_reject (c : evaio_config) (io : io_operation_t) (w : World)
    (w2 : World)
    (hio : io (new_record c w)
      (evaio_add_elt (new_record c w) (calloc true w).2) = (-1, w2)) :
    enqueue_valid c io true w = ((evaio_del_elt (w.brk + 1) w2).errno,
      evaio_del_elt (w.brk + 1) w2) := by
  simp only [enqueue_valid, user_io_op_init_ok, hio, new_record_addr]
  simp

theorem enqueue_valid_nomem (c : evaio_config) (io : io_operation_t) (w : World) :
    enqueue_valid c io false w = (ENOMEM, (calloc false w).2) := by
  simp [enqueue_valid, user_io_op_init, calloc]

theorem free_all_eq (q : List user_io_op) (w : World) :
    free_all q w = { w with trace := w.trace ++ q.map (fun e => Event.free e.addr) } := by
  induction q generalizing w with
  | nil => simp [free_all]
  | cons e rest ih => simp [free_all, ih, free, World.log]

/-- C1: a request handed to `evaio_read` or `evaio_write` whose bridge pointer is null,
whose buffer pointer is null, whose buffer length is 0, whose callback is null or whose
file descriptor is negative is answered `EINVAL`, and the whole state is left as it
was: the registry holds the same records in the same order, and the log of calls gained
no `calloc`, no `aio_read` and no `aio_write`. -/
theorem evaio_read_write_invalid (c : evaio_config) (calloc_ok : Bool) (ret err : Int)
    (w : World)
    (h : c.aio = 0 ∨ c.data = 0 ∨ c.data_size = 0 ∨ c.cb = 0 ∨ c.fd < 0) :
    evaio_read (some c) calloc_ok ret err w = (EINVAL, w) ∧
    evaio_write (some c) calloc_ok ret err w = (EINVAL, w) := by
  have hc : c.aio = 0 ∨ c.data = 0 ∨ c.cb = 0 ∨ c.fd < 0 ∨ c.data_size = 0 := by tauto
  simp only [evaio_read, evaio_write, evaio_enqueue, if_pos hc, and_self]

/-- C1, at a request with a negative descriptor on a bridge holding one record. -/
theorem evaio_read_write_invalid_witness :
    evaio_read (some ⟨1, 100, 20, 7, 0, 0, -1⟩) true 0 0
        ⟨⟨[user_io_op.zeroed 2], 50⟩, 2, 0, []⟩ =
      (EINVAL, ⟨⟨[user_io_op.zeroed 2], 50⟩, 2, 0, []⟩) ∧
    evaio_write (some ⟨1, 100, 20, 7, 0, 0, -1⟩) true 0 0
        ⟨⟨[user_io_op.zeroed 2], 50⟩, 2, 0, []⟩ =
      (EINVAL, ⟨⟨[user_io_op.zeroed 2], 50⟩, 2, 0, []⟩) :=
  evaio_read_write_invalid ⟨1, 100, 20, 7, 0, 0, -1⟩ true 0 0
    ⟨⟨[user_io_op.zeroed 2], 50⟩, 2, 0, []⟩ (by decide)

theorem enqueue_rw_valid (c : evaio_config) (io : io_operation_t) (ok : Bool) (w : World)
    (h : valid_rw c) : evaio_enqueue (some c) io ok w = enqueue_valid c io ok w := by
  have hc : ¬ (c.aio = 0 ∨ c.data = 0 ∨ c.cb = 0 ∨ c.fd < 0 ∨ c.data_size = 0) := by
    unfold valid_rw at h
    omega
  simp only [evaio_enqueue, if_neg hc]

theorem fsync_valid (c : evaio_config) (op : Int) (ok : Bool) (ret err : Int) (w : World)
    (h : valid_sync c op) :
    evaio_fsync (some c) op ok ret err w = enqueue_valid c (aio_fsync ret err op) ok w := by
  have hc : ¬ (c.aio = 0 ∨ c.cb = 0 ∨ c.fd < 0 ∨ (op ≠ O_DSYNC ∧ op ≠ O_SYNC)) := by
    obtain ⟨h1, h2, h3, h4⟩ := h
    rcases h4 with h4 | h4 <;> simp [h4] <;> omega
  simp only [evaio_fsync, if_neg hc]

/-- C2: a request that passes validation, for which `calloc` succeeds and the OS
primitive returns 0, is answered 0 and the registry afterwards is the registry before
followed by exactly one new record, the one built from the request: one record more,
the earlier ones unchanged and in the same order.  This holds for `evaio_read` and
`evaio_write` on a request `c` valid for them, and for `evaio_fsync` on a request `s`
and mode `op` valid for it. -/
theorem submission_accepted (c s : evaio_config) (op : Int) (err : Int) (w : World)
    (hc : valid_rw c) (hs : valid_sync s op) :
    evaio_read (some c) true 0 err w =
      (0, (aio_read 0 err (new_record c w)
        (evaio_add_elt (new_record c w) (calloc true w).2)).2) ∧
    (evaio_read (some c) true 0 err w).2.aio.base = w.aio.base ++ [new_record c w] ∧
    evaio_write (some c) true 0 err w =
      (0, (aio_write 0 err (new_record c w)
        (evaio_add_elt (new_record c w) (calloc true w).2)).2) ∧
    (evaio_write (some c) true 0 err w).2.aio.base = w.aio.base ++ [new_record c w] ∧
    evaio_fsync (some s) op true 0 err w =
      (0, (aio_fsync 0 err op (new_record s w)
        (evaio_add_elt (new_record s w) (calloc true w).2)).2) ∧
    (evaio_fsync (some s) op true 0 err w).2.aio.base = w.aio.base ++ [new_record s w] := by
  simp only [evaio_read, evaio_write, enqueue_rw_valid _ _ _ _ hc, fsync_valid _ _ _ _ _ _ hs]
  rw [enqueue_valid_accept c (aio_read 0 err) w 0 _ (by decide) rfl,
    enqueue_valid_accept c (aio_write 0 err) w 0 _ (by decide) rfl,
    enqueue_valid_accept s (aio_fsync 0 err op) w 0 _ (by decide) rfl]
  simp [evaio_add_elt, calloc, TAILQ_INSERT_TAIL, aio_read, aio_write, aio_fsync]

/-- C2, at the registry size: a read of 20 bytes on descriptor 3 and an `O_SYNC` request,
each submitted to a bridge holding one record, leave two records. -/
theorem submission_accepted_witness :
    (evaio_read (some ⟨1, 100, 20, 7, 0, 0, 3⟩) true 0 0
      ⟨⟨[user_io_op.zeroed 2], 50⟩, 2, 0, []⟩).2.aio.base.length = 2 ∧
    (evaio_fsync (some ⟨1, 0, 0, 7, 0, 0, 3⟩) O_SYNC true 0 0
      ⟨⟨[user_io_op.zeroed 2], 50⟩, 2, 0, []⟩).2.aio.base.length = 2 := by
  have h := submission_accepted ⟨1, 100, 20, 7, 0, 0, 3⟩ ⟨1, 0, 0, 7, 0, 0, 3⟩ O_SYNC 0
    ⟨⟨[user_io_op.zeroed 2], 50⟩, 2, 0, []⟩ (by decide) (by decide)
  rw [h.2.1, h.2.2.2.2.2]
  decide

theorem rollback_base (c : evaio_config) (w : World) (ev : Event) (err : Int)
    (hw : ∀ e ∈ w.aio.base, e.addr ≤ w.brk) :
    (evaio_del_elt (w.brk + 1)
      { evaio_add_elt (new_record c w) (calloc true w).2 with
        errno := err
        trace := (evaio_add_elt (new_record c w) (calloc true w).2).trace ++ [ev] }).aio.base
      = w.aio.base := by
  have hfresh : ∀ e ∈ w.aio.base, e.addr ≠ (new_record c w).addr := by
    intro e he
    have := hw e he
    rw [new_record_addr]
    omega
  have h := remove_tail_fresh w.aio.base (new_record c w) hfresh
  rw [new_record_addr] at h
  simp [evaio_del_elt, evaio_add_elt, calloc, free, World.log, h]

/-- C3: when a request passes validation, `calloc` succeeds and the OS primitive
(`aio_read`, `aio_write` or `aio_fsync`) returns `-1` with `errno` set to `err`, the
submission call returns `err` and the registry afterwards is the registry before the
call: the record inserted for the request is gone again and no other record was removed
or moved.  The registry before is any well-formed one. -/
theorem submission_rejected_by_os (c s : evaio_config) (op : Int) (err : Int) (w : World)
    (hw : w.wf) (hc : valid_rw c) (hs : valid_sync s op) :
    (evaio_read (some c) true (-1) err w).1 = err ∧
    (evaio_read (some c) true (-1) err w).2.aio.base = w.aio.base ∧
    (evaio_write (some c) true (-1) err w).1 = err ∧
    (evaio_write (some c) true (-1) err w).2.aio.base = w.aio.base ∧
    (evaio_fsync (some s) op true (-1) err w).1 = err ∧
    (evaio_fsync (some s) op true (-1) err w).2.aio.base = w.aio.base := by
  simp only [evaio_read, evaio_write, enqueue_rw_valid _ _ _ _ hc, fsync_valid _ _ _ _ _ _ hs]
  rw [enqueue_valid_reject c (aio_read (-1) err) w _ rfl,
    enqueue_valid_reject c (aio_write (-1) err) w _ rfl,
    enqueue_valid_reject s (aio_fsync (-1) err op) w _ rfl]
  have h1 := rollback_base c w (Event.aio_read (new_record c w) (-1)) err (fun e he => (hw.2 e he).2)
  have h2 := rollback_base c w (Event.aio_write (new_record c w) (-1)) err (fun e he => (hw.2 e he).2)
  have h3 := rollback_base s w (Event.aio_fsync op (new_record s w) (-1)) err (fun e he => (hw.2 e he).2)
  refine ⟨?_, h1, ?_, h2, ?_, h3⟩ <;> simp [evaio_del_elt, free, World.log]

/-- C3, at a read on a bad descriptor (`EBADF` = 9) and a sync the OS refuses, on a
bridge holding one record. -/
theorem submission_rejected_by_os_witness :
    (evaio_read (some ⟨1, 100, 20, 7, 0, 0, 3⟩) true (-1) 9
      ⟨⟨[user_io_op.zeroed 2], 50⟩, 2, 0, []⟩).1 = 9 ∧
    (evaio_read (some ⟨1, 100, 20, 7, 0, 0, 3⟩) true (-1) 9
      ⟨⟨[user_io_op.zeroed 2], 50⟩, 2, 0, []⟩).2.aio.base = [user_io_op.zeroed 2] ∧
    (evaio_write (some ⟨1, 100, 20, 7, 0, 0, 3⟩) true (-1) 9
      ⟨⟨[user_io_op.zeroed 2], 50⟩, 2, 0, []⟩).1 = 9 ∧
    (evaio_write (some ⟨1, 100, 20, 7, 0, 0, 3⟩) true (-1) 9
      ⟨⟨[user_io_op.zeroed 2], 50⟩, 2, 0, []⟩).2.aio.base = [user_io_op.zeroed 2] ∧
    (evaio_fsync (some ⟨1, 0, 0, 7, 0, 0, 3⟩) O_DSYNC true (-1) 9
      ⟨⟨[user_io_op.zeroed 2], 50⟩, 2, 0, []⟩).1 = 9 ∧
    (evaio_fsync (some ⟨1, 0, 0, 7, 0, 0, 3⟩) O_DSYNC true (-1) 9
      ⟨⟨[user_io_op.zeroed 2], 50⟩, 2, 0, []⟩).2.aio.base = [user_io_op.zeroed 2] :=
  submission_rejected_by_os ⟨1, 100, 20, 7, 0, 0, 3⟩ ⟨1, 0, 0, 7, 0, 0, 3⟩ O_DSYNC 9
    ⟨⟨[user_io_op.zeroed 2], 50⟩, 2, 0, []⟩
    (by simp [World.wf, user_io_op.zeroed]) (by decide) (by decide)

/-- C8: `evaio_fsync` rejects a request at validation - it returns `EINVAL` and leaves
the whole state as it was, so the registry is unchanged and neither `calloc` nor
`aio_fsync` is called - if and only if the bridge pointer is null, the callback is null,
the descriptor is negative, or the mode is neither `O_DSYNC` nor `O_SYNC`.  The buffer
pointer and the buffer length play no part. -/
theorem evaio_fsync_rejects_iff (c : evaio_config) (op : Int) (calloc_ok : Bool)
    (ret err : Int) (w : World) :
    evaio_fsync (some c) op calloc_ok ret err w = (EINVAL, w) ↔
      (c.aio = 0 ∨ c.cb = 0 ∨ c.fd < 0 ∨ (op ≠ O_DSYNC ∧ op ≠ O_SYNC)) := by
  constructor
  · intro h
    by_contra hc
    simp only [evaio_fsync, if_neg hc] at h
    have hlen : (enqueue_valid c (aio_fsync ret err op) calloc_ok w).2.trace.length
        = w.trace.length := by rw [h]
    cases calloc_ok with
    | false =>
      rw [enqueue_valid_nomem] at hlen
      simp [calloc] at hlen
    | true =>
      by_cases hr : ret = -1
      · subst hr
        rw [enqueue_valid_reject c (aio_fsync (-1) err op) w _ rfl] at hlen
        simp [evaio_del_elt, free, World.log, aio_fsync, evaio_add_elt, calloc] at hlen
      · rw [enqueue_valid_accept c (aio_fsync ret err op) w ret _ hr rfl] at hlen
        simp [aio_fsync, evaio_add_elt, calloc] at hlen
  · intro hc
    simp only [evaio_fsync, if_pos hc]

/-- C10: when a request passes validation and `calloc` fails, `evaio_read`,
`evaio_write` and `evaio_fsync` return `ENOMEM`, the registry is left as it was, and
the only call made is the failed `calloc`: no OS primitive is invoked. -/
theorem submission_out_of_memory (c s : evaio_config) (op : Int) (ret err : Int)
    (w : World) (hc : valid_rw c) (hs : valid_sync s op) :
    ((evaio_read (some c) false ret err w).1 = ENOMEM ∧
      (evaio_read (some c) false ret err w).2.aio.base = w.aio.base ∧
      (evaio_read (some c) false ret err w).2.trace = w.trace ++ [Event.calloc 0]) ∧
    ((evaio_write (some c) false ret err w).1 = ENOMEM ∧
      (evaio_write (some c) false ret err w).2.aio.base = w.aio.base ∧
      (evaio_write (some c) false ret err w).2.trace = w.trace ++ [Event.calloc 0]) ∧
    ((evaio_fsync (some s) op false ret err w).1 = ENOMEM ∧
      (evaio_fsync (some s) op false ret err w).2.aio.base = w.aio.base ∧
      (evaio_fsync (some s) op false ret err w).2.trace = w.trace ++ [Event.calloc 0]) := by
  simp only [evaio_read, evaio_write, enqueue_rw_valid _ _ _ _ hc, fsync_valid _ _ _ _ _ _ hs,
    enqueue_valid_nomem]
  simp [calloc]

/-- C10, at a read and an `O_SYNC` request on a bridge holding one record. -/
theorem submission_out_of_memory_witness :
    ((evaio_read (some ⟨1, 100, 20, 7, 0, 0, 3⟩) false 0 0
        ⟨⟨[user_io_op.zeroed 2], 50⟩, 2, 0, []⟩).1 = ENOMEM ∧
      (evaio_read (some ⟨1, 100, 20, 7, 0, 0, 3⟩) false 0 0
        ⟨⟨[user_io_op.zeroed 2], 50⟩, 2, 0, []⟩).2.aio.base = [user_io_op.zeroed 2] ∧
      (evaio_read (some ⟨1, 100, 20, 7, 0, 0, 3⟩) false 0 0
        ⟨⟨[user_io_op.zeroed 2], 50⟩, 2, 0, []⟩).2.trace = [] ++ [Event.calloc 0]) ∧
    ((evaio_write (some ⟨1, 100, 20, 7, 0, 0, 3⟩) false 0 0
        ⟨⟨[user_io_op.zeroed 2], 50⟩, 2, 0, []⟩).1 = ENOMEM ∧
      (evaio_write (some ⟨1, 100, 20, 7, 0, 0, 3⟩) false 0 0
        ⟨⟨[user_io_op.zeroed 2], 50⟩, 2, 0, []⟩).2.aio.base = [user_io_op.zeroed 2] ∧
      (evaio_write (some ⟨1, 100, 20, 7, 0, 0, 3⟩) false 0 0
        ⟨⟨[user_io_op.zeroed 2], 50⟩, 2, 0, []⟩).2.trace = [] ++ [Event.calloc 0]) ∧
    ((evaio_fsync (some ⟨1, 0, 0, 7, 0, 0, 3⟩) O_SYNC false 0 0
        ⟨⟨[user_io_op.zeroed 2], 50⟩, 2, 0, []⟩).1 = ENOMEM ∧
      (evaio_fsync (some ⟨1, 0, 0, 7, 0, 0, 3⟩) O_SYNC false 0 0
        ⟨⟨[user_io_op.zeroed 2], 50⟩, 2, 0, []⟩).2.aio.base = [user_io_op.zeroed 2] ∧
      (evaio_fsync (some ⟨1, 0, 0, 7, 0, 0, 3⟩) O_SYNC false 0 0
        ⟨⟨[user_io_op.zeroed 2], 50⟩, 2, 0, []⟩).2.trace = [] ++ [Event.calloc 0]) :=
  submission_out_of_memory ⟨1, 100, 20, 7, 0, 0, 3⟩ ⟨1, 0, 0, 7, 0, 0, 3⟩ O_SYNC 0 0
    ⟨⟨[user_io_op.zeroed 2], 50⟩, 2, 0, []⟩ (by decide) (by decide)

/-- C9: `evaio_del` on a bridge holding any pending records, whatever their OS status,
makes exactly these calls: `free` of every pending record in registry order, then
`event_free` of the signal event, then `free` of the bridge.  It polls no record
(`aio_error`), retrieves no result (`aio_return`) and invokes no callback. -/
theorem evaio_del_discards (aio : Nat) (w : World) (h : aio ≠ 0) :
    (evaio_del aio w).trace =
      w.trace ++ w.aio.base.map (fun e => Event.free e.addr)
        ++ [Event.event_free w.aio.sigio_event, Event.free aio] ∧
    polled (evaio_del aio w).trace = polled w.trace ∧
    returned (evaio_del aio w).trace = returned w.trace ∧
    fired (evaio_del aio w).trace = fired w.trace := by
  have ht : (evaio_del aio w).trace =
      w.trace ++ w.aio.base.map (fun e => Event.free e.addr)
        ++ [Event.event_free w.aio.sigio_event, Event.free aio] := by
    simp [evaio_del, h, free_all_eq, free, World.log]
  refine ⟨ht, ?_, ?_, ?_⟩ <;> rw [ht] <;>
    simp [polled, returned, fired, List.filterMap_append, List.filterMap_map,
      Function.comp_def]

/-- C9, at a bridge at address 1 holding the records at 2 and 3. -/
theorem evaio_del_discards_witness :
    (evaio_del 1 ⟨⟨[user_io_op.zeroed 2, user_io_op.zeroed 3], 50⟩, 3, 0, []⟩).trace =
      [] ++ [user_io_op.zeroed 2, user_io_op.zeroed 3].map (fun e => Event.free e.addr)
        ++ [Event.event_free 50, Event.free 1] ∧
    polled (evaio_del 1 ⟨⟨[user_io_op.zeroed 2, user_io_op.zeroed 3], 50⟩, 3, 0, []⟩).trace
      = polled [] ∧
    returned (evaio_del 1 ⟨⟨[user_io_op.zeroed 2, user_io_op.zeroed 3], 50⟩, 3, 0, []⟩).trace
      = returned [] ∧
    fired (evaio_del 1 ⟨⟨[user_io_op.zeroed 2, user_io_op.zeroed 3], 50⟩, 3, 0, []⟩).trace
      = fired [] :=
  evaio_del_discards 1 ⟨⟨[user_io_op.zeroed 2, user_io_op.zeroed 3], 50⟩, 3, 0, []⟩
    (by decide)

/-! ## The reaper with callbacks that submit nothing -/

theorem deref_mid (kept rest : List user_io_op) (e : user_io_op)
    (h : ∀ x ∈ kept, x.addr ≠ e.addr) : deref (kept ++ e :: rest) e.addr = some e := by
  induction kept with
  | nil => simp [deref]
  | cons x xs ih =>
    have hx : x.addr ≠ e.addr := h x (List.mem_cons_self _ _)
    have ih2 := ih (fun y hy => h y (List.mem_cons_of_mem _ hy))
    unfold deref at ih2 ⊢
    simp [List.find?_cons, hx, ih2]

theorem next_mid (kept rest : List user_io_op) (e : user_io_op)
    (h : ∀ x ∈ kept, x.addr ≠ e.addr) :
    TAILQ_NEXT (kept ++ e :: rest) e.addr = TAILQ_FIRST rest := by
  induction kept with
  | nil => simp [TAILQ_NEXT]
  | cons x xs ih =>
    have hx : x.addr ≠ e.addr := h x (List.mem_cons_self _ _)
    simp [TAILQ_NEXT, hx, ih (fun y hy => h y (List.mem_cons_of_mem _ hy))]

theorem remove_mid (kept rest : List user_io_op) (e : user_io_op)
    (h1 : ∀ x ∈ kept, x.addr ≠ e.addr) (h2 : ∀ x ∈ rest, x.addr ≠ e.addr) :
    TAILQ_REMOVE (kept ++ e :: rest) e.addr = kept ++ rest := by
  have a1 := remove_fresh kept e.addr h1
  have a2 := remove_fresh rest e.addr h2
  unfold TAILQ_REMOVE at *
  simp [List.filter_append, List.filter_cons, a1, a2]

theorem sigio_loop_null (cbs : Callbacks) (ae ar : Nat → Int) (aio fuel : Nat) (w : World) :
    sigio_loop cbs ae ar aio fuel 0 w = some w := by
  cases fuel <;> rfl

theorem call_cb_quiet (cbs : Callbacks) (hq : cbs.quiet) (e : user_io_op) (aio : Nat)
    (status : Int) (t : Nat) (w : World) :
    call_cb cbs e aio status t w = w.log (Event.cb e.addr e.cb aio status t e.user_data) := by
  simp [call_cb, hq _ _ _ _ _ _, submit_all]

theorem sigio_loop_quiet (cbs : Callbacks) (hq : cbs.quiet) (ae ar : Nat → Int) (aio : Nat)
    (suf : List user_io_op) :
    ∀ (kept : List user_io_op) (w : World) (fuel : Nat),
      w.aio.base = kept ++ suf →
      ((kept ++ suf).map (·.addr)).Nodup →
      (∀ e ∈ suf, 0 < e.addr) →
      suf.length ≤ fuel →
      sigio_loop cbs ae ar aio fuel (TAILQ_FIRST suf) w =
        some { w with
          aio := { w.aio with
            base := kept ++ suf.filter (fun e => ae e.addr = EINPROGRESS) }
          trace := w.trace ++ pass_events ae ar aio suf } := by
  induction suf with
  | nil =>
    intro kept w fuel hb _ _ _
    simp [TAILQ_FIRST, sigio_loop_null, pass_events, ← hb]
  | cons e rest ih =>
    intro kept w fuel hb hnd hpos hfuel
    obtain ⟨n, hn⟩ : ∃ n, e.addr = n + 1 :=
      Nat.exists_eq_succ_of_ne_zero (Nat.pos_iff_ne_zero.mp (hpos e (List.mem_cons_self _ _)))
    obtain ⟨f, hf⟩ : ∃ f, fuel = f + 1 :=
      Nat.exists_eq_succ_of_ne_zero (by simp at hfuel; omega)
    have hnd2 : (kept.map (·.addr) ++ e.addr :: rest.map (·.addr)).Nodup := by
      simpa using hnd
    have hkept : ∀ x ∈ kept, x.addr ≠ e.addr := by
      intro x hx heq
      have := (List.nodup_append.mp hnd2).2.2
      exact this (List.mem_map_of_mem _ hx) (by simp [heq])
    have hrest : ∀ x ∈ rest, x.addr ≠ e.addr := by
      intro x hx heq
      have h1 := (List.nodup_append.mp hnd2).2.1
      have h2 := (List.nodup_cons.mp h1).1
      exact h2 (by simpa [heq] using List.mem_map_of_mem (·.addr) hx)
    have hd : deref w.aio.base (n + 1) = some e := by
      rw [hb, ← hn]; exact deref_mid kept rest e hkept
    have hnx : TAILQ_NEXT w.aio.base (n + 1) = TAILQ_FIRST rest := by
      rw [hb, ← hn]; exact next_mid kept rest e hkept
    have hrm : TAILQ_REMOVE w.aio.base (n + 1) = kept ++ rest := by
      rw [hb, ← hn]; exact remove_mid kept rest e hkept hrest
    have hpos2 : ∀ x ∈ rest, 0 < x.addr := fun x hx => hpos x (List.mem_cons_of_mem _ hx)
    have hlen : rest.length ≤ f := by simp at hfuel; omega
    subst hf
    simp only [TAILQ_FIRST, hn, sigio_loop, hd, World.log]
    by_cases hs : ae (n + 1) = EINPROGRESS
    · simp only [hs, ne_eq, not_true_eq_false, if_false, hnx]
      have hnd3 : (((kept ++ [e]) ++ rest).map (·.addr)).Nodup := by simpa using hnd
      rw [ih (kept ++ [e]) _ f (by simp [hb]) hnd3 hpos2 hlen]
      simp [pass_events, hn, hs, List.filter_cons]
    · simp only [hs, ne_eq, not_false_eq_true, if_true, hnx, call_cb_quiet cbs hq,
        evaio_del_elt, free, World.log, hrm]
      have hnd3 : ((kept ++ rest).map (·.addr)).Nodup := by
        have : (kept.map (·.addr) ++ rest.map (·.addr)).Nodup := by
          rw [List.nodup_append] at hnd2 ⊢
          refine ⟨hnd2.1, (List.nodup_cons.mp hnd2.2.1).2, ?_⟩
          intro a ha hb2
          exact hnd2.2.2 ha (List.mem_cons_of_mem _ hb2)
        simpa using this
      rw [ih kept _ f rfl hnd3 hpos2 hlen]
      simp [pass_events, hn, hs, List.filter_cons]

theorem handler_quiet (cbs : Callbacks) (hq : cbs.quiet) (ae ar : Nat → Int)
    (fuel aio : Nat) (w : World) (hw : w.wf) (hfuel : w.aio.base.length ≤ fuel) :
    evaio_sigio_handler cbs ae ar fuel aio w =
      some { w with
        aio := { w.aio with base := w.aio.base.filter (fun e => ae e.addr = EINPROGRESS) }
        trace := w.trace ++ pass_events ae ar aio w.aio.base } := by
  have h := sigio_loop_quiet cbs hq ae ar aio w.aio.base [] w fuel (by simp)
    (by simpa using hw.1) (fun e he => (hw.2 e he).1) hfuel
  simpa [evaio_sigio_handler] using h

theorem polled_pass_events (ae ar : Nat → Int) (aio : Nat) (q : List user_io_op) :
    polled (pass_events ae ar aio q) = q.map (·.addr) := by
  induction q with
  | nil => simp [pass_events, polled]
  | cons e rest ih =>
    unfold polled at ih ⊢
    by_cases hs : ae e.addr = EINPROGRESS <;>
      simp [pass_events, hs, List.filterMap_append, List.filterMap_cons, ih]

theorem ex_cbs_quiet : ex_cbs.quiet := fun _ _ _ _ _ _ => rfl

theorem ex_world_wf : ex_world.wf := by
  simp [World.wf, ex_world, user_io_op.fill, user_io_op.zeroed]

/-- C4: on a well-formed registry, with any statuses reported by `aio_error` and with
callbacks that do not touch the registry, one call of `evaio_sigio_handler` (given at
least one loop iteration per record) returns, and afterwards the registry holds exactly
the records whose status was `EINPROGRESS`, in their original order; during the pass
`aio_error` was called on every record of the registry once, in registry order: no
record was skipped or visited twice. -/
theorem reaper_keeps_in_progress (cbs : Callbacks) (ae ar : Nat → Int) (fuel aio : Nat)
    (w : World) (hq : cbs.quiet) (hw : w.wf) (hfuel : w.aio.base.length ≤ fuel) :
    ∃ w1 added, evaio_sigio_handler cbs ae ar fuel aio w = some w1 ∧
      w1.aio.base = w.aio.base.filter (fun e => ae e.addr = EINPROGRESS) ∧
      w1.trace = w.trace ++ added ∧
      polled added = w.aio.base.map (·.addr) :=
  ⟨_, pass_events ae ar aio w.aio.base, handler_quiet cbs hq ae ar fuel aio w hw hfuel,
    rfl, rfl, polled_pass_events ae ar aio w.aio.base⟩

/-- C4, at the sample bridge: of the records at 2, 3, 4 only the one at 3, in progress,
stays. -/
theorem reaper_keeps_in_progress_witness :
    ∃ w1 added, evaio_sigio_handler ex_cbs ex_status ex_result 3 1 ex_world = some w1 ∧
      w1.aio.base = ex_world.aio.base.filter (fun e => ex_status e.addr = EINPROGRESS) ∧
      w1.trace = ex_world.trace ++ added ∧
      polled added = ex_world.aio.base.map (·.addr) :=
  reaper_keeps_in_progress ex_cbs ex_status ex_result 3 1 ex_world ex_cbs_quiet ex_world_wf
    (by decide)

theorem returned_pass_events (ae ar : Nat → Int) (aio : Nat) (q : List user_io_op) :
    returned (pass_events ae ar aio q) =
      (q.filter (fun e => ae e.addr ≠ EINPROGRESS)).map (·.addr) := by
  induction q with
  | nil => simp [pass_events, returned]
  | cons e rest ih =>
    unfold returned at ih ⊢
    by_cases hs : ae e.addr = EINPROGRESS <;>
      simp [pass_events, hs, List.filterMap_append, List.filterMap_cons, List.filter_cons, ih]

/-! ## Invariants of the reachable states -/

theorem accepted_append (t1 t2 : List Event) :
    accepted (t1 ++ t2) = accepted t1 ++ accepted t2 := by
  simp [accepted, List.filterMap_append]

theorem fired_append (t1 t2 : List Event) : fired (t1 ++ t2) = fired t1 ++ fired t2 := by
  simp [fired, List.filterMap_append]

theorem mem_fired_of_fires (tr : List Event) (ev : Event) (a : Nat) (h : ev ∈ tr)
    (hf : ev.fires a) : a ∈ fired tr := by
  unfold fired
  rw [List.mem_filterMap]
  refine ⟨ev, h, ?_⟩
  cases ev <;> simp_all [Event.fires]

theorem fired_silent (ext : List Event) (h : ∀ ev ∈ ext, ∀ a, ¬ ev.touches a) :
    fired ext = [] := by
  unfold fired
  rw [List.filterMap_eq_nil_iff]
  intro ev hev
  have := h ev hev
  cases ev <;> simp_all [Event.touches]

theorem fired_once_snoc (tr : List Event) (ev : Event) (h : fired_once tr)
    (hev : ∀ a ∈ fired tr, ¬ ev.touches a) : fired_once (tr ++ [ev]) := by
  unfold fired_once at *
  rw [List.pairwise_append]
  refine ⟨h, List.pairwise_singleton _ _, ?_⟩
  intro e1 h1 e2 h2 a hf
  rw [List.mem_singleton] at h2
  subst h2
  exact hev a (mem_fired_of_fires tr e1 a h1 hf)

theorem fired_once_silent (ext : List Event) :
    ∀ tr : List Event, fired_once tr → (∀ ev ∈ ext, ∀ a, ¬ ev.touches a) →
      fired_once (tr ++ ext) := by
  induction ext with
  | nil => intro tr h _; simpa using h
  | cons ev rest ih =>
    intro tr h hs
    have h1 := fired_once_snoc tr ev h (fun a _ => hs ev (List.mem_cons_self _ _) a)
    have h2 := ih (tr ++ [ev]) h1 (fun x hx => hs x (List.mem_cons_of_mem _ hx))
    simpa using h2

theorem Ext.refl (w : World) : Ext w w [] [] :=
  { base := by simp
    trace := by simp
    acc := rfl
    silent := by simp
    brk := Nat.le_refl _
    fresh := by simp
    nodup := by simp }

theorem Ext.trans {w w1 w2 : World} {n1 n2 : List user_io_op} {e1 e2 : List Event}
    (h1 : Ext w w1 n1 e1) (h2 : Ext w1 w2 n2 e2) : Ext w w2 (n1 ++ n2) (e1 ++ e2) :=
  { base := by rw [h2.base, h1.base, List.append_assoc]
    trace := by rw [h2.trace, h1.trace, List.append_assoc]
    acc := by rw [accepted_append, h1.acc, h2.acc]
    silent := by
      intro ev hev
      rcases List.mem_append.mp hev with h | h
      · exact h1.silent ev h
      · exact h2.silent ev h
    brk := Nat.le_trans h1.brk h2.brk
    fresh := by
      intro e he
      rcases List.mem_append.mp he with h | h
      · have := h1.fresh e h
        have := h2.brk
        omega
      · have := h2.fresh e h
        have := h1.brk
        omega
    nodup := by
      rw [List.map_append, List.nodup_append]
      refine ⟨h1.nodup, h2.nodup, ?_⟩
      intro a ha hb
      obtain ⟨x, hx, rfl⟩ := List.mem_map.mp ha
      obtain ⟨y, hy, hxy⟩ := List.mem_map.mp hb
      have := h1.fresh x hx
      have := h2.fresh y hy
      omega }

theorem Ext.bound {w w1 : World} {new : List user_io_op} {ext : List Event}
    (h : Ext w w1 new ext) (hb : ∀ e ∈ w.aio.base, e.addr ≤ w.brk) :
    ∀ e ∈ w1.aio.base, e.addr ≤ w1.brk := by
  intro e he
  rw [h.base] at he
  rcases List.mem_append.mp he with h1 | h1
  · have := hb e h1
    have := h.brk
    omega
  · exact (h.fresh e h1).2

theorem enqueue_valid_ext (c : evaio_config) (io : io_operation_t) (ok : Bool) (w : World)
    (ret err op : Int)
    (hio : io = aio_read ret err ∨ io = aio_write ret err ∨ io = aio_fsync ret err op)
    (hb : ∀ e ∈ w.aio.base, e.addr ≤ w.brk) :
    ∃ new ext, Ext w (enqueue_valid c io ok w).2 new ext ∧ new.length ≤ 1 := by
  cases ok with
  | false =>
    rw [enqueue_valid_nomem]
    refine ⟨[], [Event.calloc 0], ?_, by simp⟩
    constructor <;> simp [calloc, accepted, Event.touches]
  | true =>
    by_cases hr : ret = -1
    · subst hr
      rcases hio with rfl | rfl | rfl
      · rw [enqueue_valid_reject c (aio_read (-1) err) w _ rfl]
        have hbase := rollback_base c w (Event.aio_read (new_record c w) (-1)) err hb
        refine ⟨[], [Event.calloc (w.brk + 1), Event.aio_read (new_record c w) (-1),
          Event.free (w.brk + 1)], ?_, by simp⟩
        constructor
        · simpa using hbase
        · simp [evaio_del_elt, free, World.log, aio_read, evaio_add_elt, calloc]
        · simp [accepted]
        · simp [Event.touches]
        · simp [evaio_del_elt, free, World.log, aio_read, evaio_add_elt, calloc]
        · simp
        · simp
      · rw [enqueue_valid_reject c (aio_write (-1) err) w _ rfl]
        have hbase := rollback_base c w (Event.aio_write (new_record c w) (-1)) err hb
        refine ⟨[], [Event.calloc (w.brk + 1), Event.aio_write (new_record c w) (-1),
          Event.free (w.brk + 1)], ?_, by simp⟩
        constructor
        · simpa using hbase
        · simp [evaio_del_elt, free, World.log, aio_write, evaio_add_elt, calloc]
        · simp [accepted]
        · simp [Event.touches]
        · simp [evaio_del_elt, free, World.log, aio_write, evaio_add_elt, calloc]
        · simp
        · simp
      · rw [enqueue_valid_reject c (aio_fsync (-1) err op) w _ rfl]
        have hbase := rollback_base c w (Event.aio_fsync op (new_record c w) (-1)) err hb
        refine ⟨[], [Event.calloc (w.brk + 1), Event.aio_fsync op (new_record c w) (-1),
          Event.free (w.brk + 1)], ?_, by simp⟩
        constructor
        · simpa using hbase
        · simp [evaio_del_elt, free, World.log, aio_fsync, evaio_add_elt, calloc]
        · simp [accepted]
        · simp [Event.touches]
        · simp [evaio_del_elt, free, World.log, aio_fsync, evaio_add_elt, calloc]
        · simp
        · simp
    · rcases hio with rfl | rfl | rfl
      · rw [enqueue_valid_accept c (aio_read ret err) w ret _ hr rfl]
        refine ⟨[new_record c w], [Event.calloc (w.brk + 1),
          Event.aio_read (new_record c w) ret], ?_, by simp⟩
        constructor <;>
          simp [accepted, Event.touches, aio_read, evaio_add_elt, calloc, hr,
            TAILQ_INSERT_TAIL, new_record_addr]
      · rw [enqueue_valid_accept c (aio_write ret err) w ret _ hr rfl]
        refine ⟨[new_record c w], [Event.calloc (w.brk + 1),
          Event.aio_write (new_record c w) ret], ?_, by simp⟩
        constructor <;>
          simp [accepted, Event.touches, aio_write, evaio_add_elt, calloc, hr,
            TAILQ_INSERT_TAIL, new_record_addr]
      · rw [enqueue_valid_accept c (aio_fsync ret err op) w ret _ hr rfl]
        refine ⟨[new_record c w], [Event.calloc (w.brk + 1),
          Event.aio_fsync op (new_record c w) ret], ?_, by simp⟩
        constructor <;>
          simp [accepted, Event.touches, aio_fsync, evaio_add_elt, calloc, hr,
            TAILQ_INSERT_TAIL, new_record_addr]

theorem submission_ext (s : Submission) (w : World)
    (hb : ∀ e ∈ w.aio.base, e.addr ≤ w.brk) :
    ∃ new ext, Ext w (s.run w).2 new ext ∧ new.length ≤ 1 := by
  cases s with
  | read config ok ret err =>
    cases config with
    | none => exact ⟨[], [], Ext.refl w, by simp⟩
    | some c =>
      simp only [Submission.run, evaio_read, evaio_enqueue]
      split
      · exact ⟨[], [], Ext.refl w, by simp⟩
      · exact enqueue_valid_ext c _ ok w ret err 0 (Or.inl rfl) hb
  | write config ok ret err =>
    cases config with
    | none => exact ⟨[], [], Ext.refl w, by simp⟩
    | some c =>
      simp only [Submission.run, evaio_write, evaio_enqueue]
      split
      · exact ⟨[], [], Ext.refl w, by simp⟩
      · exact enqueue_valid_ext c _ ok w ret err 0 (Or.inr (Or.inl rfl)) hb
  | fsync config op ok ret err =>
    cases config with
    | none => exact ⟨[], [], Ext.refl w, by simp⟩
    | some c =>
      simp only [Submission.run, evaio_fsync]
      split
      · exact ⟨[], [], Ext.refl w, by simp⟩
      · exact enqueue_valid_ext c _ ok w ret err op (Or.inr (Or.inr rfl)) hb

theorem submit_all_ext (l : List Submission) :
    ∀ w : World, (∀ e ∈ w.aio.base, e.addr ≤ w.brk) →
      ∃ new ext, Ext w (submit_all l w) new ext := by
  induction l with
  | nil => intro w _; exact ⟨[], [], Ext.refl w⟩
  | cons s rest ih =>
    intro w hb
    obtain ⟨n1, e1, h1, _⟩ := submission_ext s w hb
    obtain ⟨n2, e2, h2⟩ := ih (s.run w).2 (h1.bound hb)
    exact ⟨n1 ++ n2, e1 ++ e2, h1.trans h2⟩

theorem World.inv.base_bound {w : World} (h : w.inv) :
    ∀ e ∈ w.aio.base, 0 < e.addr ∧ e.addr ≤ w.brk := by
  intro e he
  rw [h.base_eq] at he
  exact h.bound e (List.mem_filter.mp he).1

theorem World.inv.not_fired {w : World} (h : w.inv) :
    ∀ e ∈ w.aio.base, e.addr ∉ fired w.trace := by
  intro e he
  rw [h.base_eq] at he
  simpa using (List.mem_filter.mp he).2

theorem World.inv.to_wf {w : World} (h : w.inv) : w.wf := by
  refine ⟨?_, h.base_bound⟩
  rw [h.base_eq]
  exact List.Nodup.sublist (List.Sublist.map _ (List.filter_sublist _)) h.nodup

theorem filter_fresh (new : List user_io_op) (fd : List Nat) (b : Nat)
    (hf : ∀ a ∈ fd, a ≤ b) (hn : ∀ e ∈ new, b < e.addr) :
    new.filter (fun e => e.addr ∉ fd) = new := by
  rw [List.filter_eq_self]
  intro e he
  have h1 := hn e he
  have : e.addr ∉ fd := fun hm => by
    have := hf _ hm
    omega
  simpa using this

/-- Submissions keep the invariant. -/
theorem World.inv.ext {w w1 : World} {new : List user_io_op} {ext : List Event}
    (h : w.inv) (hx : Ext w w1 new ext) : w1.inv := by
  have hfe : fired ext = [] := fired_silent ext hx.silent
  have hfired : fired w1.trace = fired w.trace := by
    rw [hx.trace, fired_append, hfe, List.append_nil]
  have hacc : accepted w1.trace = accepted w.trace ++ new := by
    rw [hx.trace, accepted_append, hx.acc]
  constructor
  · rw [hx.base, hacc, hfired, List.filter_append, ← h.base_eq,
      filter_fresh new (fired w.trace) w.brk h.fired_bound (fun e he => (hx.fresh e he).1)]
  · rw [hacc, List.map_append, List.nodup_append]
    refine ⟨h.nodup, hx.nodup, ?_⟩
    intro a ha hb
    obtain ⟨x, hx1, rfl⟩ := List.mem_map.mp ha
    obtain ⟨y, hy, hxy⟩ := List.mem_map.mp hb
    have := (h.bound x hx1).2
    have := (hx.fresh y hy).1
    omega
  · intro e he
    rw [hacc] at he
    rcases List.mem_append.mp he with h1 | h1
    · have := h.bound e h1
      have := hx.brk
      omega
    · have := hx.fresh e h1
      omega
  · intro a ha
    rw [hfired] at ha
    have := h.fired_bound a ha
    have := hx.brk
    omega
  · rw [hfired]; exact h.fired_nodup
  · rw [hx.trace]; exact fired_once_silent ext w.trace h.once hx.silent

/-- Polling a record of the registry keeps the invariant. -/
theorem World.inv.poll {w : World} (h : w.inv) (e : user_io_op) (he : e ∈ w.aio.base)
    (status : Int) : (w.log (Event.aio_error e.addr status)).inv := by
  have hnf := h.not_fired e he
  constructor
  · simpa [World.log, accepted_append, fired_append, accepted, fired] using h.base_eq
  · simpa [World.log, accepted_append, accepted] using h.nodup
  · simpa [World.log, accepted_append, accepted] using h.bound
  · simpa [World.log, fired_append, fired] using h.fired_bound
  · simpa [World.log, fired_append, fired] using h.fired_nodup
  · refine fired_once_snoc w.trace _ h.once ?_
    intro a ha ht
    simp only [Event.touches] at ht
    subst ht
    exact hnf ha

/-- Reaping a finished record of the registry keeps the invariant: the poll, the
retrieval of the result, the callback with the submissions it makes, and the removal. -/
theorem World.inv.reap {w : World} (h : w.inv) (e : user_io_op) (he : e ∈ w.aio.base)
    (status progress : Int) (fn aio t ud : Nat) (w3 : World) (new : List user_io_op)
    (ext : List Event)
    (hx : Ext (((w.log (Event.aio_error e.addr status)).log
      (Event.aio_return e.addr progress)).log (Event.cb e.addr fn aio status t ud))
      w3 new ext) :
    (evaio_del_elt e.addr w3).inv := by
  have hnf := h.not_fired e he
  have hfe : fired ext = [] := fired_silent ext hx.silent
  have hbase3 : w3.aio.base = w.aio.base ++ new := by simpa [World.log] using hx.base
  have htr3 : w3.trace = w.trace ++ [Event.aio_error e.addr status] ++
      [Event.aio_return e.addr progress] ++ [Event.cb e.addr fn aio status t ud] ++ ext := by
    simpa [World.log] using hx.trace
  have hbrk : w.brk ≤ w3.brk := by simpa [World.log] using hx.brk
  have hfresh : ∀ x ∈ new, w.brk < x.addr ∧ x.addr ≤ w3.brk := by
    simpa [World.log] using hx.fresh
  have htr4 : (evaio_del_elt e.addr w3).trace = w3.trace ++ [Event.free e.addr] := by
    simp [evaio_del_elt, free, World.log]
  have hacc : accepted (evaio_del_elt e.addr w3).trace = accepted w.trace ++ new := by
    rw [htr4, htr3]
    simp only [accepted_append, hx.acc]
    simp [accepted]
  have hfired : fired (evaio_del_elt e.addr w3).trace = fired w.trace ++ [e.addr] := by
    rw [htr4, htr3]
    simp only [fired_append, hfe]
    simp [fired]
  have hebound := h.base_bound e he
  constructor
  · rw [hacc, hfired]
    have hb4 : (evaio_del_elt e.addr w3).aio.base =
        (w.aio.base ++ new).filter (fun x => x.addr != e.addr) := by
      simp [evaio_del_elt, free, World.log, TAILQ_REMOVE, hbase3]
    rw [hb4, List.filter_append, List.filter_append, h.base_eq, List.filter_filter]
    congr 1
    · apply List.filter_congr
      intro x _
      by_cases hxe : x.addr = e.addr <;> simp [hxe]
    · apply List.filter_congr
      intro x hxn
      have h1 := (hfresh x hxn).1
      have h2 : x.addr ∉ fired w.trace := fun hm => by
        have := h.fired_bound _ hm
        omega
      by_cases hxe : x.addr = e.addr <;> simp [h2, hxe]
  · rw [hacc, List.map_append, List.nodup_append]
    refine ⟨h.nodup, hx.nodup, ?_⟩
    intro a ha hb
    obtain ⟨x, hx1, rfl⟩ := List.mem_map.mp ha
    obtain ⟨y, hy, hxy⟩ := List.mem_map.mp hb
    have := (h.bound x hx1).2
    have := (hfresh y hy).1
    omega
  · intro x hxm
    rw [hacc] at hxm
    have hb4 : (evaio_del_elt e.addr w3).brk = w3.brk := by
      simp [evaio_del_elt, free, World.log]
    rw [hb4]
    rcases List.mem_append.mp hxm with h1 | h1
    · have := h.bound x h1
      omega
    · have := hfresh x h1
      omega
  · intro a ha
    rw [hfired] at ha
    have hb4 : (evaio_del_elt e.addr w3).brk = w3.brk := by
      simp [evaio_del_elt, free, World.log]
    rw [hb4]
    rcases List.mem_append.mp ha with h1 | h1
    · have := h.fired_bound a h1
      omega
    · rw [List.mem_singleton] at h1
      omega
  · rw [hfired, List.nodup_append]
    refine ⟨h.fired_nodup, List.nodup_singleton _, ?_⟩
    intro a ha hb
    rw [List.mem_singleton] at hb
    subst hb
    exact hnf ha
  · rw [htr4, htr3]
    have o1 := fired_once_snoc w.trace (Event.aio_error e.addr status) h.once (by
      intro a ha ht
      simp only [Event.touches] at ht
      subst ht
      exact hnf ha)
    have o2 := fired_once_snoc _ (Event.aio_return e.addr progress) o1 (by
      intro a _ ht
      simp [Event.touches] at ht)
    have o3 := fired_once_snoc _ (Event.cb e.addr fn aio status t ud) o2 (by
      intro a ha ht
      simp only [Event.touches] at ht
      subst ht
      simp [fired_append, fired] at ha
      exact hnf (by simpa [fired] using ha))
    have o4 := fired_once_silent ext _ o3 hx.silent
    exact fired_once_snoc _ (Event.free e.addr) o4 (by
      intro a _ ht
      simp [Event.touches] at ht)

theorem deref_some (q : List user_io_op) (elt : Nat) (e : user_io_op)
    (h : deref q elt = some e) : e ∈ q ∧ e.addr = elt := by
  unfold deref at h
  refine ⟨List.mem_of_find?_eq_some h, ?_⟩
  simpa using List.find?_some h

/-- A reaper pass keeps the invariant, whatever the callbacks submit and however long
the pass runs. -/
theorem sigio_loop_inv (cbs : Callbacks) (ae ar : Nat → Int) (aio : Nat) :
    ∀ (fuel elt : Nat) (w w1 : World), w.inv →
      sigio_loop cbs ae ar aio fuel elt w = some w1 → w1.inv := by
  intro fuel
  induction fuel with
  | zero =>
    intro elt w w1 hi hr
    cases elt with
    | zero => simp [sigio_loop] at hr; rw [← hr]; exact hi
    | succ n => simp [sigio_loop] at hr
  | succ f ih =>
    intro elt w w1 hi hr
    cases elt with
    | zero => simp [sigio_loop] at hr; rw [← hr]; exact hi
    | succ n =>
      simp only [sigio_loop] at hr
      cases hd : deref w.aio.base (n + 1) with
      | none => simp [hd] at hr
      | some e =>
        obtain ⟨hmem, haddr⟩ := deref_some _ _ _ hd
        simp only [hd] at hr
        by_cases hs : ae (n + 1) = EINPROGRESS
        · simp only [hs, ne_eq, not_true_eq_false, if_false] at hr
          have hp := hi.poll e hmem EINPROGRESS
          rw [haddr] at hp
          exact ih _ _ _ hp hr
        · simp only [hs, ne_eq, not_false_eq_true, if_true] at hr
          refine ih _ _ _ ?_ hr
          have hb : ∀ x ∈ (((w.log (Event.aio_error e.addr (ae (n + 1)))).log
              (Event.aio_return e.addr (ar (n + 1)))).log
              (Event.cb e.addr e.cb aio (ae (n + 1)) (size_t_cast (ar (n + 1)))
                e.user_data)).aio.base, x.addr ≤ (((w.log (Event.aio_error e.addr
              (ae (n + 1)))).log (Event.aio_return e.addr (ar (n + 1)))).log
              (Event.cb e.addr e.cb aio (ae (n + 1)) (size_t_cast (ar (n + 1)))
                e.user_data)).brk := by
            intro x hx
            exact (hi.base_bound x (by simpa [World.log] using hx)).2
          obtain ⟨new, ext, hx⟩ := submit_all_ext
            (cbs e.cb aio (ae (n + 1)) (size_t_cast (ar (n + 1))) e.user_data
              (((w.log (Event.aio_error e.addr (ae (n + 1)))).log
                (Event.aio_return e.addr (ar (n + 1)))).log
                (Event.cb e.addr e.cb aio (ae (n + 1)) (size_t_cast (ar (n + 1)))
                  e.user_data))) _ hb
          have := hi.reap e hmem (ae (n + 1)) (ar (n + 1)) e.cb aio
            (size_t_cast (ar (n + 1))) e.user_data _ new ext hx
          rw [haddr] at this
          simpa [call_cb, haddr] using this

theorem run_inv (cbs : Callbacks) (aio : Nat) (calls : List Call) :
    ∀ (w w1 : World), w.inv → run cbs aio calls w = some w1 → w1.inv := by
  induction calls with
  | nil => intro w w1 hi hr; simp [run] at hr; rw [← hr]; exact hi
  | cons c rest ih =>
    intro w w1 hi hr
    cases c with
    | submit s =>
      simp only [run] at hr
      obtain ⟨new, ext, hx, _⟩ := submission_ext s w (fun e he => (hi.base_bound e he).2)
      exact ih _ _ (hi.ext hx) hr
    | sigio ae ar fuel =>
      simp only [run] at hr
      cases hh : evaio_sigio_handler cbs ae ar fuel aio w with
      | none => simp [hh] at hr
      | some w2 =>
        simp only [hh] at hr
        exact ih _ _ (sigio_loop_inv cbs ae ar aio _ _ _ _ hi hh) hr

theorem evaio_new_inv (base : Nat) (malloc_ok : Bool) (ev : Nat) (add_ret : Int)
    (w0 : World) (h0 : w0.trace = [])
    (hnew : (evaio_new base malloc_ok ev add_ret w0).1 ≠ 0) :
    (evaio_new base malloc_ok ev add_ret w0).2.inv := by
  cases malloc_ok with
  | false => simp [evaio_new, malloc] at hnew
  | true =>
    by_cases hev : ev = 0
    · simp [evaio_new, malloc, hev] at hnew
    · by_cases ha : add_ret = 0
      · constructor <;>
          simp [evaio_new, malloc, hev, ha, World.log, h0, accepted, fired, fired_once,
            Event.fires]
      · simp [evaio_new, malloc, hev, ha] at hnew

/-- With callbacks that submit nothing, every sequence of calls runs to its end, given
each pass a budget of one iteration per record that can be pending. -/
theorem run_quiet_returns (cbs : Callbacks) (hq : cbs.quiet) (aio : Nat)
    (calls : List Call) :
    ∀ w : World, w.inv → (∀ c ∈ calls, c.fuel_ok (w.aio.base.length + calls.length)) →
      ∃ w1, run cbs aio calls w = some w1 := by
  induction calls with
  | nil => intro w _ _; exact ⟨w, rfl⟩
  | cons c rest ih =>
    intro w hi hf
    have mono : ∀ n m : Nat, m ≤ n → ∀ c : Call, c.fuel_ok n → c.fuel_ok m := by
      intro n m hnm c hc
      cases c with
      | submit s => trivial
      | sigio ae ar fuel => exact Nat.le_trans hnm hc
    cases c with
    | submit s =>
      obtain ⟨new, ext, hx, hlen⟩ := submission_ext s w (fun e he => (hi.base_bound e he).2)
      simp only [run]
      apply ih _ (hi.ext hx)
      intro c hc
      refine mono _ _ ?_ c (hf c (List.mem_cons_of_mem _ hc))
      rw [hx.base]
      simp only [List.length_append, List.length_cons]
      omega
    | sigio ae ar fuel =>
      have hfuel : w.aio.base.length ≤ fuel := by
        have := hf (Call.sigio ae ar fuel) (List.mem_cons_self _ _)
        simp only [Call.fuel_ok, List.length_cons] at this
        omega
      have hh := handler_quiet cbs hq ae ar fuel aio w hi.to_wf hfuel
      simp only [run, hh]
      apply ih _ (sigio_loop_inv cbs ae ar aio _ _ _ _ hi hh)
      intro c hc
      refine mono _ _ ?_ c (hf c (List.mem_cons_of_mem _ hc))
      have := List.length_filter_le (fun e => decide (ae e.addr = EINPROGRESS)) w.aio.base
      simp only [List.length_cons]
      omega

theorem ex_run :
    run ex_cbs_resubmit (evaio_new 9 true 50 0 World.boot).1 ex_calls
      (evaio_new 9 true 50 0 World.boot).2 = some ex_final := by
  decide

/-- C6: start from a bridge that `evaio_new` has just created and run any sequence of
submissions and deliveries of `SIGIO`, with any answers of the allocator and of the OS
and with callbacks that may themselves submit.  In the log of the state reached, no
record has its callback invoked twice, and after the invocation of a record's callback
nothing polls that record (`aio_error`) or invokes its callback again. -/
theorem callback_at_most_once (cbs : Callbacks) (base : Nat) (malloc_ok : Bool) (ev : Nat)
    (add_ret : Int) (w0 : World) (calls : List Call) (w : World)
    (h0 : w0.trace = [])
    (hnew : (evaio_new base malloc_ok ev add_ret w0).1 ≠ 0)
    (hrun : run cbs (evaio_new base malloc_ok ev add_ret w0).1 calls
      (evaio_new base malloc_ok ev add_ret w0).2 = some w) :
    (fired w.trace).Nodup ∧ fired_once w.trace :=
  have hi := run_inv cbs _ calls _ w (evaio_new_inv base malloc_ok ev add_ret w0 h0 hnew) hrun
  ⟨hi.fired_nodup, hi.once⟩

/-- C6, at the sample life of a bridge: the callbacks of the records at 2 and 4 are
each invoked once. -/
theorem callback_at_most_once_witness :
    (fired ex_final.trace).Nodup ∧ fired_once ex_final.trace :=
  callback_at_most_once ex_cbs_resubmit 9 true 50 0 World.boot ex_calls ex_final rfl
    (by decide) ex_run

/-- C7: start from a bridge that `evaio_new` has just created and run any sequence of
submissions (accepted, rejected at validation, failing in `calloc`, rejected by the OS)
and deliveries of `SIGIO`, with callbacks that may themselves submit.  In the state
reached the registry is, in submission order, the list of the records the OS accepted
whose callback has not been invoked, and no two of its records are the same. -/
theorem registry_is_accepted_unfired (cbs : Callbacks) (base : Nat) (malloc_ok : Bool)
    (ev : Nat) (add_ret : Int) (w0 : World) (calls : List Call) (w : World)
    (h0 : w0.trace = [])
    (hnew : (evaio_new base malloc_ok ev add_ret w0).1 ≠ 0)
    (hrun : run cbs (evaio_new base malloc_ok ev add_ret w0).1 calls
      (evaio_new base malloc_ok ev add_ret w0).2 = some w) :
    w.aio.base = (accepted w.trace).filter (fun e => e.addr ∉ fired w.trace) ∧
    (w.aio.base.map (·.addr)).Nodup :=
  have hi := run_inv cbs _ calls _ w (evaio_new_inv base malloc_ok ev add_ret w0 h0 hnew) hrun
  ⟨hi.base_eq, hi.to_wf.1⟩

/-- C7, at the sample life of a bridge: both accepted records have been reaped and the
registry is empty. -/
theorem registry_is_accepted_unfired_witness :
    ex_final.aio.base =
      (accepted ex_final.trace).filter (fun e => e.addr ∉ fired ex_final.trace) ∧
    (ex_final.aio.base.map (·.addr)).Nodup :=
  registry_is_accepted_unfired ex_cbs_resubmit 9 true 50 0 World.boot ex_calls ex_final rfl
    (by decide) ex_run

/-! ## Return value of a submission -/

/-- C11, as stated, fails: a valid write whose `aio_write` returns `-1` with `errno` 9
makes `evaio_write` return 9, not the return value `-1` of `aio_write`. -/
theorem evaio_write_not_primitive_result :
    (evaio_write (some (ex_config 3 11)) true (-1) 9 ex_world).1 = 9 ∧
    (aio_write (-1) 9 (new_record (ex_config 3 11) ex_world)
      (evaio_add_elt (new_record (ex_config 3 11) ex_world) (calloc true ex_world).2)).1
      = -1 ∧
    (evaio_write (some (ex_config 3 11)) true (-1) 9 ex_world).1 ≠
      (aio_write (-1) 9 (new_record (ex_config 3 11) ex_world)
        (evaio_add_elt (new_record (ex_config 3 11) ex_world) (calloc true ex_world).2)).1 := by
  decide

/-- C11, amended: for a request that passes validation and for which `calloc`
succeeds, `evaio_read`, `evaio_write` and `evaio_fsync` return the return value of
`aio_read`, `aio_write`, `aio_fsync` when that value is not `-1`, and the `errno` the
primitive has set when the value is `-1`. -/
theorem submission_result (c s : evaio_config) (op : Int) (ret err : Int) (w : World)
    (hc : valid_rw c) (hs : valid_sync s op) :
    (evaio_read (some c) true ret err w).1 = (if ret = -1 then err else ret) ∧
    (evaio_write (some c) true ret err w).1 = (if ret = -1 then err else ret) ∧
    (evaio_fsync (some s) op true ret err w).1 = (if ret = -1 then err else ret) := by
  simp only [evaio_read, evaio_write, enqueue_rw_valid _ _ _ _ hc, fsync_valid _ _ _ _ _ _ hs]
  by_cases hr : ret = -1
  · subst hr
    rw [enqueue_valid_reject c (aio_read (-1) err) w _ rfl,
      enqueue_valid_reject c (aio_write (-1) err) w _ rfl,
      enqueue_valid_reject s (aio_fsync (-1) err op) w _ rfl]
    simp [evaio_del_elt, free, World.log, aio_read, aio_write, aio_fsync]
  · rw [enqueue_valid_accept c (aio_read ret err) w ret _ hr rfl,
      enqueue_valid_accept c (aio_write ret err) w ret _ hr rfl,
      enqueue_valid_accept s (aio_fsync ret err op) w ret _ hr rfl]
    simp [hr]

/-- C11 amended, at the sample request: once with the primitives answering 0, once with
the primitives answering `-1` and `errno` 9. -/
theorem submission_result_witness :
    ((evaio_read (some (ex_config 3 11)) true 0 9 ex_world).1 = (if (0 : Int) = -1 then 9 else 0) ∧
     (evaio_write (some (ex_config 3 11)) true 0 9 ex_world).1 = (if (0 : Int) = -1 then 9 else 0) ∧
     (evaio_fsync (some (ex_config 3 11)) O_SYNC true 0 9 ex_world).1 =
       (if (0 : Int) = -1 then 9 else 0)) ∧
    ((evaio_read (some (ex_config 3 11)) true (-1) 9 ex_world).1 =
       (if (-1 : Int) = -1 then 9 else -1) ∧
     (evaio_write (some (ex_config 3 11)) true (-1) 9 ex_world).1 =
       (if (-1 : Int) = -1 then 9 else -1) ∧
     (evaio_fsync (some (ex_config 3 11)) O_SYNC true (-1) 9 ex_world).1 =
       (if (-1 : Int) = -1 then 9 else -1)) :=
  ⟨submission_result (ex_config 3 11) (ex_config 3 11) O_SYNC 0 9 ex_world (by decide)
      (by decide),
   submission_result (ex_config 3 11) (ex_config 3 11) O_SYNC (-1) 9 ex_world (by decide)
      (by decide)⟩

/-! ## Creation and destruction of the bridge -/

/-- C12: `evaio_new` returns a non-null bridge if and only if `malloc`, `evsignal_new`
and `event_add` all succeed.  When they do, the result is the address `malloc` returned,
the registry of the bridge is empty and the calls made are `malloc`, `evsignal_new` on
`SIGIO` with the bridge as argument, and `event_add`.  When `malloc` fails nothing else
is called; when `evsignal_new` fails the bridge is freed; when `event_add` fails (answer
`r`, not 0) the event is freed and then the bridge; in the three cases the result is
`NULL`. -/
theorem evaio_new_contract (base : Nat) (malloc_ok : Bool) (ev : Nat) (add_ret : Int)
    (r : Int) (w : World) (hr : r ≠ 0) :
    ((evaio_new base malloc_ok ev add_ret w).1 ≠ 0 ↔
      (malloc_ok = true ∧ ev ≠ 0 ∧ add_ret = 0)) ∧
    evaio_new base true (ev + 1) 0 w =
      (w.brk + 1,
        { aio := { base := [], sigio_event := ev + 1 }
          brk := w.brk + 1
          errno := w.errno
          trace := w.trace ++ [Event.malloc (w.brk + 1),
            Event.evsignal_new base SIGIO (w.brk + 1) (ev + 1),
            Event.event_add (ev + 1) 0] }) ∧
    (evaio_new base false ev add_ret w).1 = 0 ∧
    (evaio_new base false ev add_ret w).2.trace = w.trace ++ [Event.malloc 0] ∧
    (evaio_new base true 0 add_ret w).1 = 0 ∧
    (evaio_new base true 0 add_ret w).2.trace =
      w.trace ++ [Event.malloc (w.brk + 1), Event.evsignal_new base SIGIO (w.brk + 1) 0,
        Event.free (w.brk + 1)] ∧
    (evaio_new base true (ev + 1) r w).1 = 0 ∧
    (evaio_new base true (ev + 1) r w).2.trace =
      w.trace ++ [Event.malloc (w.brk + 1),
        Event.evsignal_new base SIGIO (w.brk + 1) (ev + 1), Event.event_add (ev + 1) r,
        Event.event_free (ev + 1), Event.free (w.brk + 1)] := by
  refine ⟨?_, ?_, ?_, ?_, ?_, ?_, ?_, ?_⟩
  · cases malloc_ok with
    | false => simp [evaio_new, malloc]
    | true =>
      by_cases hev : ev = 0
      · simp [evaio_new, malloc, hev]
      · by_cases ha : add_ret = 0 <;> simp [evaio_new, malloc, hev, ha]
  all_goals simp [evaio_new, malloc, free, World.log, hr]

/-- C12, at the state `World.boot`, with `event_add` answering `-1` in the last case. -/
theorem evaio_new_contract_witness :
    (evaio_new 9 true 50 0 World.boot).1 ≠ 0 ∧
    (evaio_new 9 true 50 0 World.boot).2.aio.base = [] ∧
    (evaio_new 9 true 50 (-1) World.boot).1 = 0 ∧
    (evaio_new 9 true 50 (-1) World.boot).2.trace =
      [Event.malloc 1, Event.evsignal_new 9 SIGIO 1 50, Event.event_add 50 (-1),
        Event.event_free 50, Event.free 1] := by
  have h := evaio_new_contract 9 true 49 0 (-1) World.boot (by decide)
  refine ⟨?_, ?_, h.2.2.2.2.2.2.1, ?_⟩
  · rw [h.2.1]; decide
  · rw [h.2.1]
  · rw [h.2.2.2.2.2.2.2]; rfl

/-- C14: `evaio_del` on a null handle returns at once and leaves the whole state as it
was: the log gains no callback, no `free`, no `event_free`, and the bridge is
unchanged. -/
theorem evaio_del_null (w : World) : evaio_del 0 w = w := by
  simp [evaio_del]

/-! ## The record of a request -/

/-- C18: when `calloc` succeeds, `user_io_op_init` returns the record at the address
`calloc` gave, carrying the callback and the user context of the request; its control
block holds the descriptor, buffer pointer, byte count and offset of the request, asks
for notification `SIGEV_SIGNAL` with signal `SIGIO`, and every other field of it is
zero. -/
theorem user_io_op_init_record (config : evaio_config) (w : World) :
    (user_io_op_init config true w).1 =
      some
        { addr := w.brk + 1
          base :=
            { aio_fildes := config.fd
              aio_lio_opcode := 0
              aio_reqprio := 0
              aio_buf := config.data
              aio_nbytes := config.data_size
              sigev_value := 0
              sigev_signo := SIGIO
              sigev_notify := SIGEV_SIGNAL
              aio_offset := config.offset }
          cb := config.cb
          user_data := config.user_data } := by
  simp [user_io_op_init, calloc, user_io_op.fill, user_io_op.zeroed]

/-! ## A pass that finds nothing finished -/

theorem nodup_mid {kept rest : List user_io_op} {e : user_io_op}
    (hnd : ((kept ++ e :: rest).map (·.addr)).Nodup) :
    (∀ x ∈ kept, x.addr ≠ e.addr) ∧ (∀ x ∈ rest, x.addr ≠ e.addr) := by
  have hnd2 : (kept.map (·.addr) ++ e.addr :: rest.map (·.addr)).Nodup := by
    simpa using hnd
  constructor
  · intro x hx heq
    exact (List.nodup_append.mp hnd2).2.2 (List.mem_map_of_mem _ hx) (by simp [heq])
  · intro x hx heq
    have h1 := (List.nodup_append.mp hnd2).2.1
    exact (List.nodup_cons.mp h1).1 (by simpa [heq] using List.mem_map_of_mem (·.addr) hx)

theorem sigio_loop_idle (cbs : Callbacks) (ae ar : Nat → Int) (aio : Nat)
    (suf : List user_io_op) :
    ∀ (kept : List user_io_op) (w : World) (fuel : Nat),
      w.aio.base = kept ++ suf →
      ((kept ++ suf).map (·.addr)).Nodup →
      (∀ e ∈ suf, 0 < e.addr) →
      (∀ e ∈ suf, ae e.addr = EINPROGRESS) →
      suf.length ≤ fuel →
      sigio_loop cbs ae ar aio fuel (TAILQ_FIRST suf) w =
        some { w with
          trace := w.trace ++ suf.map (fun e => Event.aio_error e.addr EINPROGRESS) } := by
  induction suf with
  | nil =>
    intro kept w fuel _ _ _ _ _
    simp [TAILQ_FIRST, sigio_loop_null]
  | cons e rest ih =>
    intro kept w fuel hb hnd hpos hst hfuel
    obtain ⟨n, hn⟩ : ∃ n, e.addr = n + 1 :=
      Nat.exists_eq_succ_of_ne_zero (Nat.pos_iff_ne_zero.mp (hpos e (List.mem_cons_self _ _)))
    obtain ⟨f, hf⟩ : ∃ f, fuel = f + 1 :=
      Nat.exists_eq_succ_of_ne_zero (by simp at hfuel; omega)
    obtain ⟨hkept, _⟩ := nodup_mid hnd
    have hd : deref w.aio.base (n + 1) = some e := by
      rw [hb, ← hn]; exact deref_mid kept rest e hkept
    have hnx : TAILQ_NEXT w.aio.base (n + 1) = TAILQ_FIRST rest := by
      rw [hb, ← hn]; exact next_mid kept rest e hkept
    have hs : ae (n + 1) = EINPROGRESS := by
      rw [← hn]; exact hst e (List.mem_cons_self _ _)
    have hlen : rest.length ≤ f := by simp at hfuel; omega
    subst hf
    simp only [TAILQ_FIRST, hn, sigio_loop, hd, World.log]
    simp only [hs, ne_eq, not_true_eq_false, if_false, hnx]
    have hnd3 : (((kept ++ [e]) ++ rest).map (·.addr)).Nodup := by simpa using hnd
    rw [ih (kept ++ [e]) _ f (by simp [hb]) hnd3
      (fun x hx => hpos x (List.mem_cons_of_mem _ hx))
      (fun x hx => hst x (List.mem_cons_of_mem _ hx)) hlen]
    simp [hn]

/-- C13: on a well-formed registry (the empty one included) in which `aio_error` reports
`EINPROGRESS` for every record, a call of `evaio_sigio_handler` (given at least one
loop iteration per record) returns with the registry unchanged - same records, same
order - having called `aio_error` once on each record and nothing else: no callback is
invoked and `aio_return` is called on no record.  This holds whatever the callbacks
would do. -/
theorem reaper_nothing_finished (cbs : Callbacks) (ae ar : Nat → Int) (fuel aio : Nat)
    (w : World) (hw : w.wf) (hst : ∀ e ∈ w.aio.base, ae e.addr = EINPROGRESS)
    (hfuel : w.aio.base.length ≤ fuel) :
    ∃ w1 added, evaio_sigio_handler cbs ae ar fuel aio w = some w1 ∧
      w1.aio = w.aio ∧
      w1.trace = w.trace ++ added ∧
      added = w.aio.base.map (fun e => Event.aio_error e.addr EINPROGRESS) ∧
      fired added = [] ∧ returned added = [] := by
  have h := sigio_loop_idle cbs ae ar aio w.aio.base [] w fuel (by simp)
    (by simpa using hw.1) (fun e he => (hw.2 e he).1) hst hfuel
  refine ⟨_, _, h, rfl, rfl, rfl, ?_, ?_⟩
  · simp [fired, List.filterMap_map, Function.comp_def]
  · simp [returned, List.filterMap_map, Function.comp_def]

/-- C13, at the sample bridge with all three records in progress, and with callbacks
that would resubmit. -/
theorem reaper_nothing_finished_witness :
    ∃ w1 added, evaio_sigio_handler ex_cbs_resubmit (fun _ => EINPROGRESS) ex_result 3 1
        ex_world = some w1 ∧
      w1.aio = ex_world.aio ∧
      w1.trace = ex_world.trace ++ added ∧
      added = ex_world.aio.base.map (fun e => Event.aio_error e.addr EINPROGRESS) ∧
      fired added = [] ∧ returned added = [] :=
  reaper_nothing_finished ex_cbs_resubmit (fun _ => EINPROGRESS) ex_result 3 1 ex_world
    ex_world_wf (fun _ _ => rfl) (by decide)

/-! ## Order of the calls on a record -/

theorem returned_append (t1 t2 : List Event) :
    returned (t1 ++ t2) = returned t1 ++ returned t2 := by
  simp [returned, List.filterMap_append]

theorem returned_plain (ext : List Event) (h : ∀ ev ∈ ext, ev.plain) : returned ext = [] := by
  unfold returned
  rw [List.filterMap_eq_nil_iff]
  intro ev hev
  have := h ev hev
  cases ev <;> simp_all [Event.plain]

theorem fired_plain (ext : List Event) (h : ∀ ev ∈ ext, ev.plain) : fired ext = [] := by
  unfold fired
  rw [List.filterMap_eq_nil_iff]
  intro ev hev
  have := h ev hev
  cases ev <;> simp_all [Event.plain]

theorem in_sequence_snoc (tr : List Event) (ev : Event) (h : in_sequence tr)
    (hev : ev.preceded_ok tr) : in_sequence (tr ++ [ev]) := by
  intro pre x post heq
  rcases List.eq_nil_or_concat post with rfl | ⟨post1, y, rfl⟩
  · have h1 : tr ++ [ev] = pre ++ [x] := heq
    obtain ⟨h2, h3⟩ := List.append_inj' h1 rfl
    simp only [List.cons.injEq, and_true] at h3
    subst h2 h3
    exact hev
  · have h1 : tr ++ [ev] = (pre ++ x :: post1) ++ [y] := by
      rw [heq]; simp
    obtain ⟨h2, _⟩ := List.append_inj' h1 rfl
    exact h pre x post1 h2

theorem in_sequence_plain (ext : List Event) :
    ∀ tr : List Event, in_sequence tr → (∀ ev ∈ ext, ev.plain) → in_sequence (tr ++ ext) := by
  induction ext with
  | nil => intro tr h _; simpa using h
  | cons ev rest ih =>
    intro tr h hp
    have hev : ev.preceded_ok tr := by
      have := hp ev (List.mem_cons_self _ _)
      cases ev <;> simp_all [Event.plain, Event.preceded_ok]
    have h2 := ih (tr ++ [ev]) (in_sequence_snoc tr ev h hev)
      (fun x hx => hp x (List.mem_cons_of_mem _ hx))
    simpa using h2

theorem enqueue_valid_plain (c : evaio_config) (io : io_operation_t) (ok : Bool) (w : World)
    (ret err op : Int)
    (hio : io = aio_read ret err ∨ io = aio_write ret err ∨ io = aio_fsync ret err op) :
    ∃ ext, (enqueue_valid c io ok w).2.trace = w.trace ++ ext ∧ ∀ ev ∈ ext, ev.plain := by
  cases ok with
  | false =>
    rw [enqueue_valid_nomem]
    exact ⟨[Event.calloc 0], by simp [calloc], by simp [Event.plain]⟩
  | true =>
    by_cases hr : ret = -1
    · subst hr
      rcases hio with rfl | rfl | rfl
      · rw [enqueue_valid_reject c (aio_read (-1) err) w _ rfl]
        exact ⟨[Event.calloc (w.brk + 1), Event.aio_read (new_record c w) (-1),
          Event.free (w.brk + 1)],
          by simp [evaio_del_elt, free, World.log, aio_read, evaio_add_elt, calloc],
          by simp [Event.plain]⟩
      · rw [enqueue_valid_reject c (aio_write (-1) err) w _ rfl]
        exact ⟨[Event.calloc (w.brk + 1), Event.aio_write (new_record c w) (-1),
          Event.free (w.brk + 1)],
          by simp [evaio_del_elt, free, World.log, aio_write, evaio_add_elt, calloc],
          by simp [Event.plain]⟩
      · rw [enqueue_valid_reject c (aio_fsync (-1) err op) w _ rfl]
        exact ⟨[Event.calloc (w.brk + 1), Event.aio_fsync op (new_record c w) (-1),
          Event.free (w.brk + 1)],
          by simp [evaio_del_elt, free, World.log, aio_fsync, evaio_add_elt, calloc],
          by simp [Event.plain]⟩
    · rcases hio with rfl | rfl | rfl
      · rw [enqueue_valid_accept c (aio_read ret err) w ret _ hr rfl]
        exact ⟨[Event.calloc (w.brk + 1), Event.aio_read (new_record c w) ret],
          by simp [aio_read, evaio_add_elt, calloc], by simp [Event.plain]⟩
      · rw [enqueue_valid_accept c (aio_write ret err) w ret _ hr rfl]
        exact ⟨[Event.calloc (w.brk + 1), Event.aio_write (new_record c w) ret],
          by simp [aio_write, evaio_add_elt, calloc], by simp [Event.plain]⟩
      · rw [enqueue_valid_accept c (aio_fsync ret err op) w ret _ hr rfl]
        exact ⟨[Event.calloc (w.brk + 1), Event.aio_fsync op (new_record c w) ret],
          by simp [aio_fsync, evaio_add_elt, calloc], by simp [Event.plain]⟩

theorem submission_plain (s : Submission) (w : World) :
    ∃ ext, (s.run w).2.trace = w.trace ++ ext ∧ ∀ ev ∈ ext, ev.plain := by
  cases s with
  | read config ok ret err =>
    cases config with
    | none => exact ⟨[], by simp [Submission.run, evaio_read, evaio_enqueue], by simp⟩
    | some c =>
      simp only [Submission.run, evaio_read, evaio_enqueue]
      split
      · exact ⟨[], by simp, by simp⟩
      · exact enqueue_valid_plain c _ ok w ret err 0 (Or.inl rfl)
  | write config ok ret err =>
    cases config with
    | none => exact ⟨[], by simp [Submission.run, evaio_write, evaio_enqueue], by simp⟩
    | some c =>
      simp only [Submission.run, evaio_write, evaio_enqueue]
      split
      · exact ⟨[], by simp, by simp⟩
      · exact enqueue_valid_plain c _ ok w ret err 0 (Or.inr (Or.inl rfl))
  | fsync config op ok ret err =>
    cases config with
    | none => exact ⟨[], by simp [Submission.run, evaio_fsync], by simp⟩
    | some c =>
      simp only [Submission.run, evaio_fsync]
      split
      · exact ⟨[], by simp, by simp⟩
      · exact enqueue_valid_plain c _ ok w ret err op (Or.inr (Or.inr rfl))

theorem submit_all_plain (l : List Submission) :
    ∀ w : World, ∃ ext, (submit_all l w).trace = w.trace ++ ext ∧ ∀ ev ∈ ext, ev.plain := by
  induction l with
  | nil => intro w; exact ⟨[], by simp [submit_all], by simp⟩
  | cons s rest ih =>
    intro w
    obtain ⟨e1, h1, p1⟩ := submission_plain s w
    obtain ⟨e2, h2, p2⟩ := ih (s.run w).2
    refine ⟨e1 ++ e2, by simp [submit_all, h2, h1], ?_⟩
    intro ev hev
    rcases List.mem_append.mp hev with h | h
    · exact p1 ev h
    · exact p2 ev h

/-- Events that are none of `aio_error`, `aio_return`, callback keep the order. -/
theorem World.seq.plain {w w1 : World} (h : w.seq) (ext : List Event)
    (ht : w1.trace = w.trace ++ ext) (hp : ∀ ev ∈ ext, ev.plain) : w1.seq := by
  constructor
  · rw [ht]; exact in_sequence_plain ext w.trace h.ordered hp
  · rw [ht, returned_append, fired_append, returned_plain ext hp, fired_plain ext hp]
    simpa using h.returned_fired
  · rw [ht, returned_append, returned_plain ext hp]
    simpa using h.returned_nodup

/-- Polling keeps the order. -/
theorem World.seq.poll_ok {w : World} (h : w.seq) (a : Nat) (status : Int) :
    (w.log (Event.aio_error a status)).seq := by
  constructor
  · exact in_sequence_snoc w.trace _ h.ordered (by simp [Event.preceded_ok])
  · simpa [World.log, returned_append, fired_append, returned, fired] using h.returned_fired
  · simpa [World.log, returned_append, returned] using h.returned_nodup

/-- Reaping a finished record whose callback was not invoked before keeps the order. -/
theorem World.seq.reap_ok {w : World} (h : w.seq) (a : Nat) (hnf : a ∉ fired w.trace)
    (status progress : Int) (hst : status ≠ EINPROGRESS) (fn aio ud : Nat) (w3 : World)
    (ext : List Event)
    (ht : w3.trace = (((w.log (Event.aio_error a status)).log
      (Event.aio_return a progress)).log
      (Event.cb a fn aio status (size_t_cast progress) ud)).trace ++ ext)
    (hp : ∀ ev ∈ ext, ev.plain) :
    (evaio_del_elt a w3).seq := by
  have htr : (evaio_del_elt a w3).trace =
      w.trace ++ [Event.aio_error a status] ++ [Event.aio_return a progress] ++
        [Event.cb a fn aio status (size_t_cast progress) ud] ++ (ext ++ [Event.free a]) := by
    simp [evaio_del_elt, free, World.log, ht]
  have hp2 : ∀ ev ∈ ext ++ [Event.free a], ev.plain := by
    intro ev hev
    rcases List.mem_append.mp hev with h1 | h1
    · exact hp ev h1
    · rw [List.mem_singleton] at h1
      subst h1
      simp [Event.plain]
  have hret : returned (evaio_del_elt a w3).trace = returned w.trace ++ [a] := by
    rw [htr]
    simp only [returned_append, returned_plain _ hp2]
    simp [returned]
  have hfired : fired (evaio_del_elt a w3).trace = fired w.trace ++ [a] := by
    rw [htr]
    simp only [fired_append, fired_plain _ hp2]
    simp [fired]
  constructor
  · rw [htr]
    have o1 := in_sequence_snoc w.trace (Event.aio_error a status) h.ordered
      (by simp [Event.preceded_ok])
    have o2 := in_sequence_snoc _ (Event.aio_return a progress) o1
      ⟨w.trace, status, rfl, hst⟩
    have o3 := in_sequence_snoc _ (Event.cb a fn aio status (size_t_cast progress) ud) o2
      ⟨w.trace ++ [Event.aio_error a status], progress, rfl, rfl⟩
    exact in_sequence_plain _ _ o3 hp2
  · rw [hret, hfired]
    intro x hx
    rcases List.mem_append.mp hx with h1 | h1
    · exact List.mem_append_left _ (h.returned_fired x h1)
    · exact List.mem_append_right _ h1
  · rw [hret, List.nodup_append]
    refine ⟨h.returned_nodup, List.nodup_singleton _, ?_⟩
    intro x hx hx2
    rw [List.mem_singleton] at hx2
    subst hx2
    exact hnf (h.returned_fired _ hx)

theorem sigio_loop_seq (cbs : Callbacks) (ae ar : Nat → Int) (aio : Nat) :
    ∀ (fuel elt : Nat) (w w1 : World), w.inv → w.seq →
      sigio_loop cbs ae ar aio fuel elt w = some w1 → w1.seq := by
  intro fuel
  induction fuel with
  | zero =>
    intro elt w w1 _ hs hr
    cases elt with
    | zero => simp [sigio_loop] at hr; rw [← hr]; exact hs
    | succ n => simp [sigio_loop] at hr
  | succ f ih =>
    intro elt w w1 hi hs hr
    cases elt with
    | zero => simp [sigio_loop] at hr; rw [← hr]; exact hs
    | succ n =>
      simp only [sigio_loop] at hr
      cases hd : deref w.aio.base (n + 1) with
      | none => simp [hd] at hr
      | some e =>
        obtain ⟨hmem, haddr⟩ := deref_some _ _ _ hd
        simp only [hd] at hr
        by_cases hst : ae (n + 1) = EINPROGRESS
        · simp only [hst, ne_eq, not_true_eq_false, if_false] at hr
          have hp := hi.poll e hmem EINPROGRESS
          rw [haddr] at hp
          exact ih _ _ _ hp (hs.poll_ok (n + 1) EINPROGRESS) hr
        · simp only [hst, ne_eq, not_false_eq_true, if_true] at hr
          have hb : ∀ x ∈ (((w.log (Event.aio_error e.addr (ae (n + 1)))).log
              (Event.aio_return e.addr (ar (n + 1)))).log
              (Event.cb e.addr e.cb aio (ae (n + 1)) (size_t_cast (ar (n + 1)))
                e.user_data)).aio.base, x.addr ≤ (((w.log (Event.aio_error e.addr
              (ae (n + 1)))).log (Event.aio_return e.addr (ar (n + 1)))).log
              (Event.cb e.addr e.cb aio (ae (n + 1)) (size_t_cast (ar (n + 1)))
                e.user_data)).brk := by
            intro x hx
            exact (hi.base_bound x (by simpa [World.log] using hx)).2
          obtain ⟨new, ext, hx⟩ := submit_all_ext
            (cbs e.cb aio (ae (n + 1)) (size_t_cast (ar (n + 1))) e.user_data
              (((w.log (Event.aio_error e.addr (ae (n + 1)))).log
                (Event.aio_return e.addr (ar (n + 1)))).log
                (Event.cb e.addr e.cb aio (ae (n + 1)) (size_t_cast (ar (n + 1)))
                  e.user_data))) _ hb
          obtain ⟨ext2, ht2, hp2⟩ := submit_all_plain
            (cbs e.cb aio (ae (n + 1)) (size_t_cast (ar (n + 1))) e.user_data
              (((w.log (Event.aio_error e.addr (ae (n + 1)))).log
                (Event.aio_return e.addr (ar (n + 1)))).log
                (Event.cb e.addr e.cb aio (ae (n + 1)) (size_t_cast (ar (n + 1)))
                  e.user_data)))
            (((w.log (Event.aio_error e.addr (ae (n + 1)))).log
                (Event.aio_return e.addr (ar (n + 1)))).log
                (Event.cb e.addr e.cb aio (ae (n + 1)) (size_t_cast (ar (n + 1)))
                  e.user_data))
          have hi4 := hi.reap e hmem (ae (n + 1)) (ar (n + 1)) e.cb aio
            (size_t_cast (ar (n + 1))) e.user_data _ new ext hx
          have hs4 := hs.reap_ok e.addr (hi.not_fired e hmem) (ae (n + 1)) (ar (n + 1)) hst
            e.cb aio e.user_data _ ext2 ht2 hp2
          rw [haddr] at hi4 hs4
          refine ih _ _ _ ?_ ?_ hr
          · simpa [call_cb, haddr] using hi4
          · simpa [call_cb, haddr] using hs4

theorem run_seq (cbs : Callbacks) (aio : Nat) (calls : List Call) :
    ∀ (w w1 : World), w.inv → w.seq → run cbs aio calls w = some w1 → w1.seq := by
  induction calls with
  | nil => intro w w1 _ hs hr; simp [run] at hr; rw [← hr]; exact hs
  | cons c rest ih =>
    intro w w1 hi hs hr
    cases c with
    | submit s =>
      simp only [run] at hr
      obtain ⟨new, ext, hx, _⟩ := submission_ext s w (fun e he => (hi.base_bound e he).2)
      obtain ⟨ext2, ht2, hp2⟩ := submission_plain s w
      exact ih _ _ (hi.ext hx) (hs.plain ext2 ht2 hp2) hr
    | sigio ae ar fuel =>
      simp only [run] at hr
      cases hh : evaio_sigio_handler cbs ae ar fuel aio w with
      | none => simp [hh] at hr
      | some w2 =>
        simp only [hh] at hr
        exact ih _ _ (sigio_loop_inv cbs ae ar aio _ _ _ _ hi hh)
          (sigio_loop_seq cbs ae ar aio _ _ _ _ hi hs hh) hr

theorem evaio_new_seq (base : Nat) (malloc_ok : Bool) (ev : Nat) (add_ret : Int)
    (w0 : World) (h0 : w0.trace = []) :
    (evaio_new base malloc_ok ev add_ret w0).2.seq := by
  have hboot : ({ w0 with trace := [] } : World).seq := by
    constructor
    · intro pre ev post h
      simp at h
    · simp [returned]
    · simp [returned]
  have hw0 : w0.seq := by
    have : ({ w0 with trace := [] } : World) = w0 := by
      cases w0; simp_all
    rw [← this]; exact hboot
  have key : ∃ ext, (evaio_new base malloc_ok ev add_ret w0).2.trace = w0.trace ++ ext ∧
      ∀ e ∈ ext, e.plain := by
    cases malloc_ok with
    | false => exact ⟨[Event.malloc 0], by simp [evaio_new, malloc], by simp [Event.plain]⟩
    | true =>
      by_cases hev : ev = 0
      · exact ⟨_, by simp [evaio_new, malloc, hev, free, World.log]; rfl,
          by simp [Event.plain]⟩
      · by_cases ha : add_ret = 0
        · exact ⟨_, by simp [evaio_new, malloc, hev, ha, free, World.log]; rfl,
            by simp [Event.plain]⟩
        · exact ⟨_, by simp [evaio_new, malloc, hev, ha, free, World.log]; rfl,
            by simp [Event.plain]⟩
  obtain ⟨ext, ht, hp⟩ := key
  exact hw0.plain ext ht hp

/-- C16: start from a bridge that `evaio_new` has just created and run any sequence of
submissions and deliveries of `SIGIO`, with callbacks that may themselves submit.  In
the log of the state reached, every call of `aio_return` on a record comes right after
a call of `aio_error` on the same record that reported a status other than
`EINPROGRESS`, and no record has `aio_return` called on it twice. -/
theorem aio_return_once_finished (cbs : Callbacks) (base : Nat) (malloc_ok : Bool)
    (ev : Nat) (add_ret : Int) (w0 : World) (calls : List Call) (w : World)
    (h0 : w0.trace = [])
    (hnew : (evaio_new base malloc_ok ev add_ret w0).1 ≠ 0)
    (hrun : run cbs (evaio_new base malloc_ok ev add_ret w0).1 calls
      (evaio_new base malloc_ok ev add_ret w0).2 = some w) :
    (∀ pre a p post, w.trace = pre ++ Event.aio_return a p :: post →
      ∃ l st, pre = l ++ [Event.aio_error a st] ∧ st ≠ EINPROGRESS) ∧
    (returned w.trace).Nodup :=
  have hs := run_seq cbs _ calls _ w (evaio_new_inv base malloc_ok ev add_ret w0 h0 hnew)
    (evaio_new_seq base malloc_ok ev add_ret w0 h0) hrun
  ⟨fun pre a p post h => hs.ordered pre (Event.aio_return a p) post h, hs.returned_nodup⟩

/-- C16, at the sample life of a bridge: `aio_return` is called once on the record at 2
and once on the record at 4, each time right after their status 0 was read. -/
theorem aio_return_once_finished_witness :
    (∀ pre a p post, ex_final.trace = pre ++ Event.aio_return a p :: post →
      ∃ l st, pre = l ++ [Event.aio_error a st] ∧ st ≠ EINPROGRESS) ∧
    (returned ex_final.trace).Nodup :=
  aio_return_once_finished ex_cbs_resubmit 9 true 50 0 World.boot ex_calls ex_final rfl
    (by decide) ex_run

theorem size_t_cast_eq (x : Int) : (size_t_cast x : Int) = x % 2 ^ SIZE_WIDTH := by
  unfold size_t_cast
  exact Int.toNat_of_nonneg (Int.emod_nonneg _ (by decide))

/-- C17: in the log of every state reached from a freshly created bridge, the callback
of a record comes right after the call of `aio_return` on that record, and the count
handed to the callback is the value `aio_return` gave converted to `size_t`.  The
conversion reduces modulo `2 ^ SIZE_WIDTH`: it leaves a value from 0 to
`2 ^ SIZE_WIDTH - 1` (so every non-negative `ssize_t`) as it is, and turns `-1` into
`2 ^ SIZE_WIDTH - 1`. -/
theorem transfered_is_size_t_cast (cbs : Callbacks) (base : Nat) (malloc_ok : Bool)
    (ev : Nat) (add_ret : Int) (w0 : World) (calls : List Call) (w : World)
    (h0 : w0.trace = [])
    (hnew : (evaio_new base malloc_ok ev add_ret w0).1 ≠ 0)
    (hrun : run cbs (evaio_new base malloc_ok ev add_ret w0).1 calls
      (evaio_new base malloc_ok ev add_ret w0).2 = some w) :
    (∀ pre a fn aio st t ud post, w.trace = pre ++ Event.cb a fn aio st t ud :: post →
      ∃ l p, pre = l ++ [Event.aio_return a p] ∧ t = size_t_cast p) ∧
    (∀ x : Int, (size_t_cast x : Int) = x % 2 ^ SIZE_WIDTH) ∧
    (∀ x : Int, 0 ≤ x → x < 2 ^ SIZE_WIDTH → (size_t_cast x : Int) = x) ∧
    size_t_cast (-1) = 2 ^ SIZE_WIDTH - 1 := by
  have hs := run_seq cbs _ calls _ w (evaio_new_inv base malloc_ok ev add_ret w0 h0 hnew)
    (evaio_new_seq base malloc_ok ev add_ret w0 h0) hrun
  refine ⟨fun pre a fn aio st t ud post h =>
    hs.ordered pre (Event.cb a fn aio st t ud) post h, size_t_cast_eq, ?_, by decide⟩
  intro x h1 h2
  rw [size_t_cast_eq]
  exact Int.emod_eq_of_lt h1 h2

/-- C17, at the sample life of a bridge: the callbacks of the records at 2 and 4 receive
the count 20 that `aio_return` gave. -/
theorem transfered_is_size_t_cast_witness :
    (∀ pre a fn aio st t ud post,
      ex_final.trace = pre ++ Event.cb a fn aio st t ud :: post →
      ∃ l p, pre = l ++ [Event.aio_return a p] ∧ t = size_t_cast p) ∧
    (∀ x : Int, (size_t_cast x : Int) = x % 2 ^ SIZE_WIDTH) ∧
    (∀ x : Int, 0 ≤ x → x < 2 ^ SIZE_WIDTH → (size_t_cast x : Int) = x) ∧
    size_t_cast (-1) = 2 ^ SIZE_WIDTH - 1 :=
  transfered_is_size_t_cast ex_cbs_resubmit 9 true 50 0 World.boot ex_calls ex_final rfl
    (by decide) ex_run

/-! ## A pass whose callbacks submit -/

/-- The sample pass with a resubmitting callback returns within four iterations: the
records at 2, 3, 4 and the record appended at 5. -/
theorem ex_reentrant_pass_returns :
    (evaio_sigio_handler ex_cbs_resubmit ex_status ex_result 4 1 ex_world).isSome = true := by
  decide

end Evaio
